import Mathlib

/-!
Verification of the DirettaRendererUPnP-X real-time audio data path.

This file gives a shallow embedding of the lock-free ring buffer
`DirettaRingBuffer` (src/DirettaRingBuffer.h) together with its
format-conversion routines, and of the seek-time-string parser in
src/DirettaRenderer.cpp, and proves the specified properties about them.

Machine integers (`size_t`) are modelled as `Nat` with explicit reduction
modulo `2 ^ 64` at the points where the C++ code can wrap around, and byte
values are `Nat` (the code only ever stores values below 256).  The AVX2
intrinsics used by the conversion routines are given byte-level semantics:
a `__m256i` value is a list of 32 bytes, least-significant (lowest-address)
byte first, and each intrinsic is a function on such lists.
-/

namespace Diretta

/-- Modulus of `size_t` arithmetic (the code targets 64-bit platforms). -/
def W : Nat := 2 ^ 64

/-- Wrapping `size_t` subtraction `a - b` for operands below `W`. -/
def wsub (a b : Nat) : Nat := (a + W - b) % W

/-- Helper loop of `DirettaRingBuffer::roundUpPow2`: doubles `result`
until it reaches `value`.  The `fuel` argument only bounds the number of
iterations to make the recursion structural (hence kernel-evaluable);
since `result` doubles each step, `value` iterations always suffice. -/
def roundUpPow2Go : Nat → Nat → Nat → Nat
  | 0, _value, result => result
  | fuel + 1, value, result =>
      if result < value then roundUpPow2Go fuel value (result * 2) else result

/-- `DirettaRingBuffer::roundUpPow2`: round up to the next power of two,
with a minimum of 2. -/
def roundUpPow2 (value : Nat) : Nat :=
  if value < 2 then 2 else roundUpPow2Go value value 1

/-- The `S24PackMode` enumeration of `DirettaRingBuffer`. -/
inductive S24PackMode where
  | Unknown
  | LsbAligned
  | MsbAligned
  | Deferred
deriving DecidableEq, Repr

/-- State of a `DirettaRingBuffer` object: the backing byte vector, the
cached size/mask pair, both cursors, the silence byte and the S24
alignment-detection state. -/
structure RingState where
  buffer : List Nat
  size : Nat
  mask : Nat
  writePos : Nat
  readPos : Nat
  silenceByte : Nat
  s24PackMode : S24PackMode
  s24Hint : S24PackMode
  s24DetectionConfirmed : Bool
  deferredSampleCount : Nat
deriving DecidableEq, Repr

/-- A default-constructed `DirettaRingBuffer` (all fields zero-initialised,
no backing storage). -/
def initState : RingState :=
  { buffer := [], size := 0, mask := 0, writePos := 0, readPos := 0,
    silenceByte := 0, s24PackMode := .Unknown, s24Hint := .Unknown,
    s24DetectionConfirmed := false, deferredSampleCount := 0 }

/-- Reading one byte from a byte vector (out-of-range reads, which the C++
code never performs on the paths verified here, default to 0). -/
def byte (l : List Nat) (i : Nat) : Nat := l.getD i 0

/-- The effect of `memcpy(buf + pos, data, data.len)` on a byte vector:
store `data` at consecutive positions starting at `pos`. -/
def storeBytes (buf : List Nat) (pos : Nat) (data : List Nat) : List Nat :=
  match data with
  | [] => buf
  | b :: rest => storeBytes (buf.set pos b) (pos + 1) rest

/-- `DirettaRingBuffer::getAvailable`. -/
def getAvailable (s : RingState) : Nat :=
  if s.size = 0 then 0
  else wsub s.writePos s.readPos &&& s.mask

/-- `DirettaRingBuffer::getFreeSpace`. -/
def getFreeSpace (s : RingState) : Nat :=
  if s.size = 0 then 0
  else wsub (wsub s.readPos s.writePos) 1 &&& s.mask

/-- `DirettaRingBuffer::clear`: reset both cursors and the whole S24
detection state.  The buffer contents are not touched. -/
def clear (s : RingState) : RingState :=
  { s with
    writePos := 0, readPos := 0,
    s24PackMode := .Unknown, s24Hint := .Unknown,
    s24DetectionConfirmed := false, deferredSampleCount := 0 }

/-- `DirettaRingBuffer::fillWithSilence`: memset the whole backing store
with the silence byte. -/
def fillWithSilence (s : RingState) : RingState :=
  { s with buffer := List.replicate s.size s.silenceByte }

/-- `DirettaRingBuffer::resize`: round the size up to a power of two,
resize the vector (`std::vector::resize` keeps the prefix and value-fills
new slots), store the silence byte, `clear()`, then `fillWithSilence()`. -/
def resize (s : RingState) (newSize : Nat) (silenceByte : Nat) : RingState :=
  let sz := roundUpPow2 newSize
  let s := { s with
             size := sz, mask := sz - 1,
             buffer := (s.buffer ++ List.replicate (sz - s.buffer.length) 0).take sz,
             silenceByte := silenceByte }
  fillWithSilence (clear s)

/-- `DirettaRingBuffer::getDirectWriteRegion`: `some (offset, contiguous)`
stands for returning `true` with `region = buffer + offset`. -/
def getDirectWriteRegion (s : RingState) (needed : Nat) : Option (Nat × Nat) :=
  if s.size = 0 then none
  else
    let wp := s.writePos
    let rp := s.readPos
    let toEnd := s.size - wp
    let totalFree := wsub (wsub rp wp) 1 &&& s.mask
    let contiguous := min toEnd totalFree
    if needed ≤ contiguous then some (wp, contiguous) else none

/-- `DirettaRingBuffer::commitDirectWrite`. -/
def commitDirectWrite (s : RingState) (written : Nat) : RingState :=
  { s with writePos := (s.writePos + written) &&& s.mask }

/-- `DirettaRingBuffer::getDirectReadRegion` (the two overloads in the
source are behaviourally identical): `some (offset, contiguous)` stands
for returning `true` with `region = buffer + offset`. -/
def getDirectReadRegion (s : RingState) (needed : Nat) : Option (Nat × Nat) :=
  if s.size = 0 then none
  else
    let wp := s.writePos
    let rp := s.readPos
    let total := wsub wp rp &&& s.mask
    if total < needed then none
    else
      let contiguous := min (s.size - rp) total
      if contiguous < needed then none
      else some (rp, contiguous)

/-- `DirettaRingBuffer::advanceReadPos`. -/
def advanceReadPos (s : RingState) (bytes : Nat) : RingState :=
  { s with readPos := (s.readPos + bytes) &&& s.mask }

/-- `DirettaRingBuffer::push`: fast path through `getDirectWriteRegion` /
`commitDirectWrite`, slow path with clamping to the free amount and a
two-chunk wraparound copy.  Returns the new state and the byte count
actually pushed. -/
def push (s : RingState) (data : List Nat) : RingState × Nat :=
  match getDirectWriteRegion s data.length with
  | some (wp, _) =>
      let s := { s with buffer := storeBytes s.buffer wp data }
      (commitDirectWrite s data.length, data.length)
  | none =>
      if s.size = 0 then (s, 0)
      else
        let wp := s.writePos
        let rp := s.readPos
        let free := wsub (wsub rp wp) 1 &&& s.mask
        let len := min data.length free
        if len = 0 then (s, 0)
        else
          let d := data.take len
          let firstChunk := min len (s.size - wp)
          let buf := storeBytes s.buffer wp (d.take firstChunk)
          let buf := if firstChunk < len then storeBytes buf 0 (d.drop firstChunk) else buf
          ({ s with buffer := buf, writePos := (wp + len) &&& s.mask }, len)

/-- `DirettaRingBuffer::pop`: clamp to the available amount, read with a
two-chunk wraparound copy.  Returns the new state and the bytes read. -/
def pop (s : RingState) (len : Nat) : RingState × List Nat :=
  if s.size = 0 then (s, [])
  else
    let wp := s.writePos
    let rp := s.readPos
    let avail := wsub wp rp &&& s.mask
    let len := min len avail
    if len = 0 then (s, [])
    else
      let firstChunk := min len (s.size - rp)
      let out := (s.buffer.drop rp).take firstChunk ++ s.buffer.take (len - firstChunk)
      ({ s with readPos := (rp + len) &&& s.mask }, out)

/-! ### Byte-level semantics of the AVX2 intrinsics used by the converters -/

/-- Low 128-bit lane of a 256-bit value (`_mm256_castsi256_si128`). -/
def lane0 (x : List Nat) : List Nat := x.take 16

/-- High 128-bit lane of a 256-bit value (`_mm256_extracti128_si256 x 1`). -/
def lane1 (x : List Nat) : List Nat := x.drop 16

/-- `_mm256_loadu_si256` at byte offset `off`: the 32 bytes starting there. -/
def loadu256 (src : List Nat) (off : Nat) : List Nat :=
  [byte src off, byte src (off + 1), byte src (off + 2), byte src (off + 3),
   byte src (off + 4), byte src (off + 5), byte src (off + 6), byte src (off + 7),
   byte src (off + 8), byte src (off + 9), byte src (off + 10), byte src (off + 11),
   byte src (off + 12), byte src (off + 13), byte src (off + 14), byte src (off + 15),
   byte src (off + 16), byte src (off + 17), byte src (off + 18), byte src (off + 19),
   byte src (off + 20), byte src (off + 21), byte src (off + 22), byte src (off + 23),
   byte src (off + 24), byte src (off + 25), byte src (off + 26), byte src (off + 27),
   byte src (off + 28), byte src (off + 29), byte src (off + 30), byte src (off + 31)]

/-- One 128-bit lane of `_mm256_shuffle_epi8`: a control byte with bit 7 set
produces 0, otherwise its low four bits index into the lane. -/
def pshufbLane (lane m : List Nat) : List Nat :=
  m.map (fun i => if 128 ≤ i then 0 else byte lane (i % 16))

/-- `_mm256_shuffle_epi8`: per-lane byte shuffle. -/
def pshufb (x m : List Nat) : List Nat :=
  pshufbLane (lane0 x) (lane0 m) ++ pshufbLane (lane1 x) (lane1 m)

/-- `_mm256_unpacklo_epi32`: per lane, interleave the two low 32-bit
elements of each operand (element `j` occupies bytes `4j..4j+3`, so the
result's bytes are `a0-3 b0-3 a4-7 b4-7` in the low lane and
`a16-19 b16-19 a20-23 b20-23` in the high lane). -/
def unpacklo_epi32 (a b : List Nat) : List Nat :=
  [byte a 0, byte a 1, byte a 2, byte a 3, byte b 0, byte b 1, byte b 2, byte b 3,
   byte a 4, byte a 5, byte a 6, byte a 7, byte b 4, byte b 5, byte b 6, byte b 7,
   byte a 16, byte a 17, byte a 18, byte a 19, byte b 16, byte b 17, byte b 18, byte b 19,
   byte a 20, byte a 21, byte a 22, byte a 23, byte b 20, byte b 21, byte b 22, byte b 23]

/-- `_mm256_unpackhi_epi32`: per lane, interleave the two high 32-bit
elements of each operand. -/
def unpackhi_epi32 (a b : List Nat) : List Nat :=
  [byte a 8, byte a 9, byte a 10, byte a 11, byte b 8, byte b 9, byte b 10, byte b 11,
   byte a 12, byte a 13, byte a 14, byte a 15, byte b 12, byte b 13, byte b 14, byte b 15,
   byte a 24, byte a 25, byte a 26, byte a 27, byte b 24, byte b 25, byte b 26, byte b 27,
   byte a 28, byte a 29, byte a 30, byte a 31, byte b 28, byte b 29, byte b 30, byte b 31]

/-- `_mm256_unpacklo_epi16`: per lane, interleave the four low 16-bit
elements of each operand (element `j` occupies bytes `2j, 2j+1`). -/
def unpacklo_epi16 (a b : List Nat) : List Nat :=
  [byte a 0, byte a 1, byte b 0, byte b 1, byte a 2, byte a 3, byte b 2, byte b 3,
   byte a 4, byte a 5, byte b 4, byte b 5, byte a 6, byte a 7, byte b 6, byte b 7,
   byte a 16, byte a 17, byte b 16, byte b 17, byte a 18, byte a 19, byte b 18, byte b 19,
   byte a 20, byte a 21, byte b 20, byte b 21, byte a 22, byte a 23, byte b 22, byte b 23]

/-- `_mm256_unpackhi_epi16`: per lane, interleave the four high 16-bit
elements of each operand. -/
def unpackhi_epi16 (a b : List Nat) : List Nat :=
  [byte a 8, byte a 9, byte b 8, byte b 9, byte a 10, byte a 11, byte b 10, byte b 11,
   byte a 12, byte a 13, byte b 12, byte b 13, byte a 14, byte a 15, byte b 14, byte b 15,
   byte a 24, byte a 25, byte b 24, byte b 25, byte a 26, byte a 27, byte b 26, byte b 27,
   byte a 28, byte a 29, byte b 28, byte b 29, byte a 30, byte a 31, byte b 30, byte b 31]

/-- `_mm256_permute2x128_si256` with control `0x20`. -/
def permute2x128_20 (a b : List Nat) : List Nat := lane0 a ++ lane0 b

/-- `_mm256_permute2x128_si256` with control `0x31`. -/
def permute2x128_31 (a b : List Nat) : List Nat := lane1 a ++ lane1 b

/-- `_mm256_set1_epi8`. -/
def set1_epi8 (v : Nat) : List Nat := List.replicate 32 v

/-- `_mm256_and_si256`. -/
def and256 (a b : List Nat) : List Nat := List.zipWith (fun x y => x &&& y) a b

/-- `_mm256_or_si256`. -/
def or256 (a b : List Nat) : List Nat := List.zipWith (fun x y => x ||| y) a b

/-- Group a byte list into little-endian 16-bit values. -/
def toWords16 (x : List Nat) : List Nat :=
  match x with
  | b0 :: b1 :: rest => (b0 + 256 * b1) :: toWords16 rest
  | _ => []

/-- Split 16-bit values back into little-endian byte pairs. -/
def ofWords16 (w : List Nat) : List Nat :=
  match w with
  | v :: rest => v % 256 :: v / 256 % 256 :: ofWords16 rest
  | [] => []

/-- Apply a function to every 16-bit element of a 256-bit value. -/
def map16 (f : Nat → Nat) (x : List Nat) : List Nat := ofWords16 ((toWords16 x).map f)

/-- `_mm256_srli_epi16`. -/
def srli_epi16 (x : List Nat) (n : Nat) : List Nat := map16 (fun v => v / 2 ^ n) x

/-- `_mm256_slli_epi16`. -/
def slli_epi16 (x : List Nat) (n : Nat) : List Nat := map16 (fun v => v * 2 ^ n % 65536) x

/-! ### The conversion routines of DirettaRingBuffer -/

/-- Scratch buffer size `DirettaRingBuffer::STAGING_SIZE`. -/
def STAGING_SIZE : Nat := 65536

/-- Silence timeout `DirettaRingBuffer::DEFERRED_TIMEOUT_SAMPLES`. -/
def DEFERRED_TIMEOUT_SAMPLES : Nat := 48000

/-- Shuffle control of `convert24BitPacked_AVX2` (a `-1` byte is `0xFF`). -/
def shuffleMask24 : List Nat :=
  [0, 1, 2, 4, 5, 6, 8, 9, 10, 12, 13, 14, 255, 255, 255, 255,
   0, 1, 2, 4, 5, 6, 8, 9, 10, 12, 13, 14, 255, 255, 255, 255]

/-- Shuffle control of `convert24BitPackedShifted_AVX2`. -/
def shuffleMask24Shifted : List Nat :=
  [1, 2, 3, 5, 6, 7, 9, 10, 11, 13, 14, 15, 255, 255, 255, 255,
   1, 2, 3, 5, 6, 7, 9, 10, 11, 13, 14, 15, 255, 255, 255, 255]

/-- Byte-swap control used by `convertDSDPlanar_AVX2`. -/
def byteswapMask : List Nat :=
  [3, 2, 1, 0, 7, 6, 5, 4, 11, 10, 9, 8, 15, 14, 13, 12,
   3, 2, 1, 0, 7, 6, 5, 4, 11, 10, 9, 8, 15, 14, 13, 12]

/-- The `nibble_reverse` lookup constant of `simd_bit_reverse`. -/
def nibbleReverseTable : List Nat :=
  [0x0, 0x8, 0x4, 0xC, 0x2, 0xA, 0x6, 0xE, 0x1, 0x9, 0x5, 0xD, 0x3, 0xB, 0x7, 0xF,
   0x0, 0x8, 0x4, 0xC, 0x2, 0xA, 0x6, 0xE, 0x1, 0x9, 0x5, 0xD, 0x3, 0xB, 0x7, 0xF]

/-- Scalar tail loop of `convert24BitPacked_AVX2`
(`for (; i < numSamples; i++)`): emit the low 3 bytes of each remaining
4-byte sample.  The first argument is the remaining sample count
`numSamples - i`, the second the current sample index `i`. -/
def convert24Tail (src : List Nat) : Nat → Nat → List Nat
  | 0, _i => []
  | c + 1, i =>
      byte src (i * 4) :: byte src (i * 4 + 1) :: byte src (i * 4 + 2) ::
        convert24Tail src c (i + 1)

/-- Vector loop of `convert24BitPacked_AVX2`: per iteration, shuffle 8
samples and store the low 12 bytes of each lane; then run the scalar
tail on what is left.  The `fuel` argument (first) only bounds the
iteration count to make the recursion structural; `numSamples` is always
sufficient fuel since each iteration consumes 8 samples. -/
def convert24Vec (src : List Nat) (numSamples : Nat) : Nat → Nat → List Nat
  | 0, i => convert24Tail src (numSamples - i) i
  | fuel + 1, i =>
      if i + 8 ≤ numSamples then
        (let shuffled := pshufb (loadu256 src (i * 4)) shuffleMask24
         shuffled.take 12 ++ (shuffled.drop 16).take 12) ++
          convert24Vec src numSamples fuel (i + 8)
      else convert24Tail src (numSamples - i) i

/-- `DirettaRingBuffer::convert24BitPacked_AVX2` (output byte list). -/
def convert24BitPacked_AVX2 (src : List Nat) (numSamples : Nat) : List Nat :=
  convert24Vec src numSamples numSamples 0

/-- Scalar tail loop of `convert24BitPackedShifted_AVX2`: bytes 1-3 of
each remaining sample. -/
def convert24ShiftedTail (src : List Nat) : Nat → Nat → List Nat
  | 0, _i => []
  | c + 1, i =>
      byte src (i * 4 + 1) :: byte src (i * 4 + 2) :: byte src (i * 4 + 3) ::
        convert24ShiftedTail src c (i + 1)

/-- Vector loop of `convert24BitPackedShifted_AVX2` (fuel-bounded as in
`convert24Vec`). -/
def convert24ShiftedVec (src : List Nat) (numSamples : Nat) : Nat → Nat → List Nat
  | 0, i => convert24ShiftedTail src (numSamples - i) i
  | fuel + 1, i =>
      if i + 8 ≤ numSamples then
        (let shuffled := pshufb (loadu256 src (i * 4)) shuffleMask24Shifted
         shuffled.take 12 ++ (shuffled.drop 16).take 12) ++
          convert24ShiftedVec src numSamples fuel (i + 8)
      else convert24ShiftedTail src (numSamples - i) i

/-- `DirettaRingBuffer::convert24BitPackedShifted_AVX2`. -/
def convert24BitPackedShifted_AVX2 (src : List Nat) (numSamples : Nat) : List Nat :=
  convert24ShiftedVec src numSamples numSamples 0

/-- Scalar tail loop of `convert16To32_AVX2`: `00 00 lo hi` per
remaining sample. -/
def convert16Tail (src : List Nat) : Nat → Nat → List Nat
  | 0, _i => []
  | c + 1, i =>
      0 :: 0 :: byte src (i * 2) :: byte src (i * 2 + 1) ::
        convert16Tail src c (i + 1)

/-- Vector loop of `convert16To32_AVX2`: 16 samples per iteration via
unpack against zero and a cross-lane permute (fuel-bounded as in
`convert24Vec`). -/
def convert16Vec (src : List Nat) (numSamples : Nat) : Nat → Nat → List Nat
  | 0, i => convert16Tail src (numSamples - i) i
  | fuel + 1, i =>
      if i + 16 ≤ numSamples then
        (let inp := loadu256 src (i * 2)
         let zero := set1_epi8 0
         let lo := unpacklo_epi16 zero inp
         let hi := unpackhi_epi16 zero inp
         permute2x128_20 lo hi ++ permute2x128_31 lo hi) ++
          convert16Vec src numSamples fuel (i + 16)
      else convert16Tail src (numSamples - i) i

/-- `DirettaRingBuffer::convert16To32_AVX2`. -/
def convert16To32_AVX2 (src : List Nat) (numSamples : Nat) : List Nat :=
  convert16Vec src numSamples numSamples 0

/-- `DirettaRingBuffer::simd_bit_reverse`: reverse the bit order of every
byte using the nibble lookup table. -/
def simd_bit_reverse (x : List Nat) : List Nat :=
  let mask0f := set1_epi8 0x0F
  let loNibbles := and256 x mask0f
  let hiNibbles := and256 (srli_epi16 x 4) mask0f
  let loReversed := pshufb nibbleReverseTable loNibbles
  let hiReversed := pshufb nibbleReverseTable hiNibbles
  or256 (slli_epi16 loReversed 4) hiReversed

/-- The optional 256-entry lookup table argument (`nullptr` is `none`). -/
def applyTable (t : Option (Nat → Nat)) (b : Nat) : Nat :=
  match t with
  | none => b
  | some f => f b

/-- One 4-byte group of `convertDSDPlanar_Scalar` for channel `ch` at
per-channel offset `i` (guarding and zero-filling past `bpc`, and
reversing the group when `needByteSwap`). -/
def dsdScalarGroup (src : List Nat) (bpc : Nat) (t : Option (Nat → Nat))
    (swap : Bool) (ch i : Nat) : List Nat :=
  let g : Nat → Nat := fun j =>
    if i + j < bpc then applyTable t (byte src (ch * bpc + i + j)) else 0
  if swap then [g 3, g 2, g 1, g 0] else [g 0, g 1, g 2, g 3]

/-- Inner channel loop of `convertDSDPlanar_Scalar`
(`for (ch = 0; ch < numChannels; ch++)`): the first argument is the
remaining channel count `numChannels - ch`, the second the current
channel `ch`. -/
def dsdScalarChans (src : List Nat) (bpc : Nat) (t : Option (Nat → Nat))
    (swap : Bool) (i : Nat) : Nat → Nat → List Nat
  | 0, _ch => []
  | r + 1, ch =>
      dsdScalarGroup src bpc t swap ch i ++
        dsdScalarChans src bpc t swap i r (ch + 1)

/-- Outer offset loop of `convertDSDPlanar_Scalar` (4-byte steps,
`for (i = 0; i < bpc; i += 4)`).  The `fuel` argument (first) only
bounds the iteration count to make the recursion structural; `bpc`
iterations always suffice since each step consumes 4 bytes. -/
def dsdScalarLoop (src : List Nat) (bpc : Nat) (t : Option (Nat → Nat))
    (swap : Bool) (numChannels : Nat) : Nat → Nat → List Nat
  | 0, _i => []
  | fuel + 1, i =>
      if i < bpc then
        dsdScalarChans src bpc t swap i numChannels 0 ++
          dsdScalarLoop src bpc t swap numChannels fuel (i + 4)
      else []

/-- `DirettaRingBuffer::convertDSDPlanar_Scalar`.  (The C++ divides by
`numChannels`; callers guard `numChannels != 0`, and `Nat` division by
zero yields 0 here, making the function total.) -/
def convertDSDPlanar_Scalar (src : List Nat) (totalInputBytes numChannels : Nat)
    (t : Option (Nat → Nat)) (swap : Bool) : List Nat :=
  let bpc := totalInputBytes / numChannels
  dsdScalarLoop src bpc t swap numChannels bpc 0

/-- Scalar tail of the two-channel path of `convertDSDPlanar_AVX2`
(`for (; i + 4 <= bpc; i += 4)`, fuel-bounded as in `dsdScalarLoop`).
It applies the lookup table but, unlike the vector body and the scalar
converter, performs no byte swap. -/
def dsdVec2Tail (src : List Nat) (bpc : Nat) (t : Option (Nat → Nat)) :
    Nat → Nat → List Nat
  | 0, _i => []
  | fuel + 1, i =>
      if i + 4 ≤ bpc then
        [applyTable t (byte src i), applyTable t (byte src (i + 1)),
         applyTable t (byte src (i + 2)), applyTable t (byte src (i + 3)),
         applyTable t (byte src (bpc + i)), applyTable t (byte src (bpc + i + 1)),
         applyTable t (byte src (bpc + i + 2)), applyTable t (byte src (bpc + i + 3))] ++
          dsdVec2Tail src bpc t fuel (i + 4)
      else []

/-- Vector loop of the two-channel path of `convertDSDPlanar_AVX2`:
32 bytes per channel per iteration, then the scalar tail on the rest
(fuel-bounded; `bpc` iterations always suffice). -/
def dsdVec2Loop (src : List Nat) (bpc : Nat) (t : Option (Nat → Nat))
    (swap : Bool) : Nat → Nat → List Nat
  | 0, i => dsdVec2Tail src bpc t bpc i
  | fuel + 1, i =>
      if i + 32 ≤ bpc then
        (let left := loadu256 src i
         let right := loadu256 src (bpc + i)
         let left := if t.isSome then simd_bit_reverse left else left
         let right := if t.isSome then simd_bit_reverse right else right
         let ilo := unpacklo_epi32 left right
         let ihi := unpackhi_epi32 left right
         let ilo := if swap then pshufb ilo byteswapMask else ilo
         let ihi := if swap then pshufb ihi byteswapMask else ihi
         permute2x128_20 ilo ihi ++ permute2x128_31 ilo ihi) ++
          dsdVec2Loop src bpc t swap fuel (i + 32)
      else dsdVec2Tail src bpc t bpc i

/-- `DirettaRingBuffer::convertDSDPlanar_AVX2`: optimized two-channel
path, scalar fallback otherwise. -/
def convertDSDPlanar_AVX2 (src : List Nat) (totalInputBytes numChannels : Nat)
    (t : Option (Nat → Nat)) (swap : Bool) : List Nat :=
  if numChannels = 2 then
    dsdVec2Loop src (totalInputBytes / numChannels) t swap
      (totalInputBytes / numChannels) 0
  else convertDSDPlanar_Scalar src totalInputBytes numChannels t swap

/-! ### Staged push operations and S24 detection -/

/-- `DirettaRingBuffer::detectS24PackMode`: inspect byte 0 and byte 3 of
up to the first 32 samples. -/
def detectS24PackMode (data : List Nat) (numSamples : Nat) : S24PackMode :=
  let checkSamples := min numSamples 32
  let allZeroLSB := (List.range checkSamples).all (fun i => byte data (i * 4) == 0)
  let allZeroMSB := (List.range checkSamples).all (fun i => byte data (i * 4 + 3) == 0)
  if !allZeroLSB && allZeroMSB then .LsbAligned
  else if allZeroLSB && !allZeroMSB then .MsbAligned
  else if allZeroLSB && allZeroMSB then .Deferred
  else .LsbAligned

/-- `DirettaRingBuffer::setS24PackModeHint`. -/
def setS24PackModeHint (s : RingState) (hint : S24PackMode) : RingState :=
  let s := { s with s24Hint := hint, s24DetectionConfirmed := false }
  if s.s24PackMode = .Unknown ∨ s.s24PackMode = .Deferred then
    { s with s24PackMode := hint }
  else s

/-- `DirettaRingBuffer::writeToRing`: write staged bytes with wraparound,
clamped to the free amount.  (The branch-free `size - writePos + readPos
- 1` of the source cannot underflow because `writePos < size` holds for
every reachable state.) -/
def writeToRing (s : RingState) (staged : List Nat) : RingState × Nat :=
  let size := s.buffer.length
  if size = 0 ∨ staged.length = 0 then (s, 0)
  else
    let writePos := s.writePos
    let readPos := s.readPos
    let available :=
      if writePos < readPos then readPos - writePos - 1
      else size - writePos + readPos - 1
    let len := min staged.length available
    if len = 0 then (s, 0)
    else
      let st := staged.take len
      let firstChunk := min len (size - writePos)
      let buf := if 0 < firstChunk then storeBytes s.buffer writePos (st.take firstChunk) else s.buffer
      let buf := if 0 < len - firstChunk then storeBytes buf 0 (st.drop firstChunk) else buf
      ({ s with buffer := buf, writePos := (writePos + len) &&& s.mask }, len)

/-- The hybrid S24 detection block inlined in `push24BitPacked` (source
lines 293-314): run sample detection when the mode is Unknown/Deferred
or matches an unconfirmed hint; a definitive result overrides and
confirms; persistent silence accumulates `m_deferredSampleCount` and,
past the timeout, force-resolves to the hint (or LSB) and confirms. -/
def s24DetectUpdate (s : RingState) (data : List Nat) (numSamples : Nat) : RingState :=
  if s.s24PackMode = .Unknown ∨ s.s24PackMode = .Deferred ∨
      (s.s24PackMode = s.s24Hint ∧ s.s24DetectionConfirmed = false) then
    let detected := detectS24PackMode data numSamples
    if detected ≠ .Deferred then
      { s with
        s24PackMode := detected, s24DetectionConfirmed := true,
        deferredSampleCount := 0 }
    else
      let s := { s with deferredSampleCount := s.deferredSampleCount + numSamples }
      if DEFERRED_TIMEOUT_SAMPLES < s.deferredSampleCount then
        { s with
          s24PackMode := if s.s24Hint ≠ .Unknown then s.s24Hint else .LsbAligned,
          s24DetectionConfirmed := true }
      else s
  else s

/-- `DirettaRingBuffer::push24BitPacked`: clamp the sample count to the
staging and free space, run hybrid S24 detection, convert with the
effective mode, write to the ring, and return input bytes consumed. -/
def push24BitPacked (s : RingState) (data : List Nat) : RingState × Nat :=
  if s.size = 0 then (s, 0)
  else
    let numSamples := data.length / 4
    if numSamples = 0 then (s, 0)
    else
      let maxSamples := STAGING_SIZE / 3
      let free := getFreeSpace s
      let maxSamplesByFree := free / 3
      let numSamples := min numSamples maxSamples
      let numSamples := min numSamples maxSamplesByFree
      if numSamples = 0 then (s, 0)
      else
        let s := s24DetectUpdate s data numSamples
        let effectiveMode :=
          if s.s24PackMode = .Deferred ∨ s.s24PackMode = .Unknown then
            if s.s24Hint ≠ .Unknown then s.s24Hint else .LsbAligned
          else s.s24PackMode
        let staged :=
          if effectiveMode = .MsbAligned then convert24BitPackedShifted_AVX2 data numSamples
          else convert24BitPacked_AVX2 data numSamples
        let r := writeToRing s staged
        (r.1, r.2 / 3 * 4)

/-- `DirettaRingBuffer::push16To32`. -/
def push16To32 (s : RingState) (data : List Nat) : RingState × Nat :=
  if s.size = 0 then (s, 0)
  else
    let numSamples := data.length / 2
    if numSamples = 0 then (s, 0)
    else
      let maxSamples := STAGING_SIZE / 4
      let free := getFreeSpace s
      let maxSamplesByFree := free / 4
      let numSamples := min numSamples maxSamples
      let numSamples := min numSamples maxSamplesByFree
      if numSamples = 0 then (s, 0)
      else
        let staged := convert16To32_AVX2 data numSamples
        let r := writeToRing s staged
        (r.1, r.2 / 4 * 2)

/-- `DirettaRingBuffer::pushDSDPlanar`. -/
def pushDSDPlanar (s : RingState) (data : List Nat) (numChannels : Nat)
    (t : Option (Nat → Nat)) (byteSwap : Bool) : RingState × Nat :=
  if s.size = 0 then (s, 0)
  else if numChannels = 0 then (s, 0)
  else
    let maxBytes := min data.length STAGING_SIZE
    let maxBytes := min maxBytes (getFreeSpace s)
    let bytesPerChannel := maxBytes / numChannels
    let completeGroups := bytesPerChannel / 4
    let usableInput := completeGroups * 4 * numChannels
    if usableInput = 0 then (s, 0)
    else
      let staged := convertDSDPlanar_AVX2 data usableInput numChannels t byteSwap
      let r := writeToRing s staged
      (r.1, r.2)

/-! ### Operation sequences -/

/-- One public operation on a `DirettaRingBuffer`. -/
inductive Op where
  | push (data : List Nat)
  | pop (len : Nat)
  | push24 (data : List Nat)
  | push16 (data : List Nat)
  | pushDSD (data : List Nat) (numChannels : Nat) (t : Option (Nat → Nat)) (swap : Bool)
  | commitDirect (written : Nat)
  | advanceRead (bytes : Nat)
  | clearOp

/-- Apply one operation, discarding its return value. -/
def applyOp (s : RingState) (op : Op) : RingState :=
  match op with
  | .push data => (push s data).1
  | .pop len => (pop s len).1
  | .push24 data => (push24BitPacked s data).1
  | .push16 data => (push16To32 s data).1
  | .pushDSD data ch t swap => (pushDSDPlanar s data ch t swap).1
  | .commitDirect written => commitDirectWrite s written
  | .advanceRead bytes => advanceReadPos s bytes
  | .clearOp => clear s

/-- Run a sequence of operations. -/
def runOps (s : RingState) (ops : List Op) : RingState := ops.foldl applyOp s

/-! ### Well-formed states and cursor arithmetic -/

/-- The size of a buffer produced by `resize` is a power of two between
`2^1` and `2^63` (any request up to `2^63` bytes; the real buffer is at
most 1 MiB). -/
def wfSize (s : RingState) : Prop := ∃ k, 1 ≤ k ∧ k ≤ 63 ∧ s.size = 2 ^ k

/-- Invariant of every reachable resized buffer: power-of-two size,
`mask = size - 1`, in-range cursors, and a backing store of exactly
`size` bytes. -/
def wf (s : RingState) : Prop :=
  wfSize s ∧ s.mask = s.size - 1 ∧ s.writePos < s.size ∧
    s.readPos < s.size ∧ s.buffer.length = s.size

lemma W_pos : 0 < W := by norm_num [W]

lemma mod_helperD {x r p m : Nat} (hm : p ∣ m) (hx : x = r + m) (hr : r < p) :
    x % p = r := by
  obtain ⟨q, rfl⟩ := hm
  subst hx
  rw [Nat.add_mul_mod_self_left, Nat.mod_eq_of_lt hr]

lemma availFormula {p wp rp : Nat} (hdvd : p ∣ W) (hwp : wp < p) (hrp : rp < p) :
    (wp + W - rp) % W % p = if rp ≤ wp then wp - rp else wp + p - rp := by
  have hWp : p ≤ W := Nat.le_of_dvd W_pos hdvd
  rw [Nat.mod_mod_of_dvd _ hdvd]
  by_cases hc : rp ≤ wp
  · rw [if_pos hc]
    exact mod_helperD hdvd (by omega) (by omega)
  · rw [if_neg hc]
    exact mod_helperD (Nat.dvd_sub' hdvd dvd_rfl) (by omega) (by omega)

lemma freeFormula {p wp rp : Nat} (hdvd : p ∣ W) (hwp : wp < p) (hrp : rp < p) :
    ((rp + W - wp) % W + W - 1) % W % p =
      p - 1 - (wp + W - rp) % W % p := by
  have hWp : p ≤ W := Nat.le_of_dvd W_pos hdvd
  have hp : 0 < p := Nat.pos_of_dvd_of_pos hdvd W_pos
  rw [availFormula hdvd hwp hrp]
  rw [Nat.mod_mod_of_dvd _ hdvd]
  have h1 : ((rp + W - wp) % W + W - 1) % p = (rp + W - wp + W - 1) % p := by
    have e1 : (rp + W - wp) % W + W - 1 = (rp + W - wp) % W + (W - 1) := by omega
    have e2 : rp + W - wp + W - 1 = (rp + W - wp) + (W - 1) := by omega
    rw [e1, e2, Nat.add_mod, Nat.mod_mod_of_dvd _ hdvd, ← Nat.add_mod]
  rw [h1]
  by_cases hc : rp ≤ wp
  · rw [if_pos hc]
    exact mod_helperD (Nat.dvd_sub' (hdvd.mul_left 2) dvd_rfl) (by omega) (by omega)
  · rw [if_neg hc]
    have e3 : p - 1 - (wp + p - rp) = rp - wp - 1 := by omega
    rw [e3]
    exact mod_helperD (hdvd.mul_left 2) (by omega) (by omega)

lemma getAvailable_eq {s : RingState} (h : wf s) :
    getAvailable s =
      if s.readPos ≤ s.writePos then s.writePos - s.readPos
      else s.writePos + s.size - s.readPos := by
  obtain ⟨⟨k, hk1, hk63, hsz⟩, hmask, hwp, hrp, _⟩ := h
  have hdvd : (2 : Nat) ^ k ∣ W := pow_dvd_pow 2 (by omega)
  have hszpos : s.size ≠ 0 := by rw [hsz]; positivity
  unfold getAvailable wsub
  rw [if_neg hszpos, hmask, hsz, Nat.and_pow_two_sub_one_eq_mod]
  rw [availFormula hdvd (hsz ▸ hwp) (hsz ▸ hrp)]

lemma getFreeSpace_eq {s : RingState} (h : wf s) :
    getFreeSpace s = s.size - 1 - getAvailable s := by
  obtain ⟨⟨k, hk1, hk63, hsz⟩, hmask, hwp, hrp, _⟩ := h
  have hdvd : (2 : Nat) ^ k ∣ W := pow_dvd_pow 2 (by omega)
  have hszpos : s.size ≠ 0 := by rw [hsz]; positivity
  unfold getFreeSpace getAvailable wsub
  rw [if_neg hszpos, if_neg hszpos, hmask, hsz,
    Nat.and_pow_two_sub_one_eq_mod, Nat.and_pow_two_sub_one_eq_mod]
  exact freeFormula hdvd (hsz ▸ hwp) (hsz ▸ hrp)

lemma size_two_le {s : RingState} (h : wf s) : 2 ≤ s.size := by
  obtain ⟨⟨k, hk1, _, hsz⟩, _, _, _, _⟩ := h
  have : (2 : Nat) ^ 1 ≤ 2 ^ k := Nat.pow_le_pow_right (by omega) hk1
  omega

lemma getAvailable_lt {s : RingState} (h : wf s) : getAvailable s < s.size := by
  have h2 := h
  obtain ⟨_, _, hwp, hrp, _⟩ := h2
  rw [getAvailable_eq h]
  split <;> omega

/-- Free plus available always equals `size - 1` on a well-formed state. -/
lemma free_add_avail {s : RingState} (h : wf s) :
    getFreeSpace s + getAvailable s = s.size - 1 := by
  have ha := getAvailable_lt h
  rw [getFreeSpace_eq h]
  have := size_two_le h
  omega

/-! ### The invariant is preserved by every operation -/

lemma masked_lt {s : RingState} (h : wf s) (x : Nat) : x &&& s.mask < s.size := by
  obtain ⟨⟨k, _, _, hsz⟩, hmask, _, _, _⟩ := h
  rw [hmask, hsz, Nat.and_pow_two_sub_one_eq_mod]
  exact Nat.mod_lt _ (by positivity)

lemma storeBytes_length (data : List Nat) :
    ∀ buf pos, (storeBytes buf pos data).length = buf.length := by
  induction data with
  | nil => intro buf pos; rfl
  | cons b rest ih =>
      intro buf pos
      rw [storeBytes, ih, List.length_set]

lemma wf_commitDirectWrite {s : RingState} (h : wf s) (n : Nat) :
    wf (commitDirectWrite s n) := by
  obtain ⟨hsz, hmask, hwp, hrp, hlen⟩ := h
  exact ⟨hsz, hmask, masked_lt ⟨hsz, hmask, hwp, hrp, hlen⟩ _, hrp, hlen⟩

lemma wf_advanceReadPos {s : RingState} (h : wf s) (n : Nat) :
    wf (advanceReadPos s n) := by
  obtain ⟨hsz, hmask, hwp, hrp, hlen⟩ := h
  exact ⟨hsz, hmask, hwp, masked_lt ⟨hsz, hmask, hwp, hrp, hlen⟩ _, hlen⟩

lemma wf_clear {s : RingState} (h : wf s) : wf (clear s) := by
  obtain ⟨hsz, hmask, hwp, hrp, hlen⟩ := h
  have h2 := size_two_le ⟨hsz, hmask, hwp, hrp, hlen⟩
  exact ⟨hsz, hmask, by simpa [clear] using (by omega : 0 < s.size), by
    simpa [clear] using (by omega : 0 < s.size), hlen⟩

lemma wf_push {s : RingState} (h : wf s) (data : List Nat) :
    wf (push s data).1 := by
  have hm : ∀ x : Nat, x &&& s.mask < s.size := masked_lt h
  obtain ⟨hsz, hmask, hwp, hrp, hlen⟩ := h
  unfold push
  cases hD : getDirectWriteRegion s data.length with
  | some v =>
      exact ⟨hsz, hmask, hm _, hrp, by
        simp [commitDirectWrite, storeBytes_length, hlen]⟩
  | none =>
      simp only
      split
      · exact ⟨hsz, hmask, hwp, hrp, hlen⟩
      · split
        · exact ⟨hsz, hmask, hwp, hrp, hlen⟩
        · refine ⟨hsz, hmask, hm _, hrp, ?_⟩
          simp only
          split <;> simp [storeBytes_length, hlen]

lemma wf_pop {s : RingState} (h : wf s) (len : Nat) :
    wf (pop s len).1 := by
  have hm : ∀ x : Nat, x &&& s.mask < s.size := masked_lt h
  obtain ⟨hsz, hmask, hwp, hrp, hlen⟩ := h
  unfold pop
  split
  · exact ⟨hsz, hmask, hwp, hrp, hlen⟩
  · simp only
    split
    · exact ⟨hsz, hmask, hwp, hrp, hlen⟩
    · exact ⟨hsz, hmask, hwp, hm _, hlen⟩

lemma wf_of_core {s t : RingState} (h : wf s) (h1 : t.size = s.size)
    (h2 : t.mask = s.mask) (h3 : t.writePos = s.writePos)
    (h4 : t.readPos = s.readPos) (h5 : t.buffer = s.buffer) : wf t := by
  unfold wf wfSize
  rw [h1, h2, h3, h4, h5]
  exact h

lemma wf_writeToRing {s : RingState} (h : wf s) (staged : List Nat) :
    wf (writeToRing s staged).1 := by
  have hm : ∀ x : Nat, x &&& s.mask < s.size := masked_lt h
  obtain ⟨hsz, hmask, hwp, hrp, hlen⟩ := h
  unfold writeToRing
  simp only
  split
  · exact ⟨hsz, hmask, hwp, hrp, hlen⟩
  · split <;>
      (split <;>
        first
          | exact ⟨hsz, hmask, hwp, hrp, hlen⟩
          | (refine ⟨hsz, hmask, hm _, hrp, ?_⟩
             split <;> split <;> simp [storeBytes_length, hlen]))

lemma s24DetectUpdate_core (s : RingState) (data : List Nat) (n : Nat) :
    (s24DetectUpdate s data n).size = s.size ∧
    (s24DetectUpdate s data n).mask = s.mask ∧
    (s24DetectUpdate s data n).writePos = s.writePos ∧
    (s24DetectUpdate s data n).readPos = s.readPos ∧
    (s24DetectUpdate s data n).buffer = s.buffer := by
  unfold s24DetectUpdate
  split
  · simp only
    split
    · exact ⟨rfl, rfl, rfl, rfl, rfl⟩
    · split <;> exact ⟨rfl, rfl, rfl, rfl, rfl⟩
  · exact ⟨rfl, rfl, rfl, rfl, rfl⟩

lemma wf_push24BitPacked {s : RingState} (h : wf s) (data : List Nat) :
    wf (push24BitPacked s data).1 := by
  unfold push24BitPacked
  split
  · exact h
  · simp only
    split
    · exact h
    · split
      · exact h
      · obtain ⟨e1, e2, e3, e4, e5⟩ := s24DetectUpdate_core s data _
        exact wf_writeToRing (wf_of_core h e1 e2 e3 e4 e5) _

lemma wf_push16To32 {s : RingState} (h : wf s) (data : List Nat) :
    wf (push16To32 s data).1 := by
  unfold push16To32
  split
  · exact h
  · simp only
    split
    · exact h
    · split
      · exact h
      · exact wf_writeToRing h _

lemma wf_pushDSDPlanar {s : RingState} (h : wf s) (data : List Nat)
    (ch : Nat) (t : Option (Nat → Nat)) (swap : Bool) :
    wf (pushDSDPlanar s data ch t swap).1 := by
  unfold pushDSDPlanar
  split
  · exact h
  · split
    · exact h
    · simp only
      split
      · exact h
      · exact wf_writeToRing h _

lemma wf_applyOp {s : RingState} (h : wf s) (op : Op) : wf (applyOp s op) := by
  cases op with
  | push data => exact wf_push h data
  | pop len => exact wf_pop h len
  | push24 data => exact wf_push24BitPacked h data
  | push16 data => exact wf_push16To32 h data
  | pushDSD data ch t swap => exact wf_pushDSDPlanar h data ch t swap
  | commitDirect n => exact wf_commitDirectWrite h n
  | advanceRead n => exact wf_advanceReadPos h n
  | clearOp => exact wf_clear h

lemma wf_runOps {s : RingState} (h : wf s) (ops : List Op) : wf (runOps s ops) := by
  induction ops generalizing s with
  | nil => exact h
  | cons op rest ih => exact ih (wf_applyOp h op)

/-! ### The size produced by resize -/

lemma roundUpPow2Go_spec (fuel : Nat) (v : Nat) :
    ∀ j, v ≤ 2 ^ (j + fuel) →
      ∃ m, j ≤ m ∧ roundUpPow2Go fuel v (2 ^ j) = 2 ^ m ∧ v ≤ 2 ^ m ∧
        (m = j ∨ 2 ^ (m - 1) < v) := by
  induction fuel with
  | zero =>
      intro j hf
      exact ⟨j, le_refl j, rfl, by simpa using hf, Or.inl rfl⟩
  | succ f ih =>
      intro j hf
      by_cases hc : 2 ^ j < v
      · have hrw : roundUpPow2Go (f + 1) v (2 ^ j) = roundUpPow2Go f v (2 ^ (j + 1)) := by
          rw [roundUpPow2Go, if_pos hc, ← pow_succ]
        obtain ⟨m, hm1, hm2, hm3, hm4⟩ := ih (j + 1)
          (by rw [show j + 1 + f = j + (f + 1) by omega]; exact hf)
        refine ⟨m, by omega, by rw [hrw]; exact hm2, hm3, Or.inr ?_⟩
        rcases hm4 with hm4 | hm4
        · subst hm4
          simpa using hc
        · exact hm4
      · exact ⟨j, le_refl j, by rw [roundUpPow2Go, if_neg hc], le_of_not_lt hc, Or.inl rfl⟩

lemma roundUpPow2_spec (v : Nat) (hv : v ≤ 2 ^ 63) :
    ∃ k, 1 ≤ k ∧ k ≤ 63 ∧ roundUpPow2 v = 2 ^ k := by
  unfold roundUpPow2
  by_cases hc : v < 2
  · exact ⟨1, by omega, by omega, by rw [if_pos hc]; rfl⟩
  · rw [if_neg hc]
    have hfuel : v ≤ 2 ^ (0 + v) := by
      simpa using le_of_lt (Nat.lt_two_pow v)
    obtain ⟨m, _, hm2, hm3, hm4⟩ := roundUpPow2Go_spec v v 0 hfuel
    have hm0 : 1 ≤ m := by
      by_contra hn
      have : m = 0 := by omega
      subst this
      simp at hm3
      omega
    have hm63 : m ≤ 63 := by
      rcases hm4 with hm4 | hm4
      · omega
      · by_contra hn
        have h63 : 63 ≤ m - 1 := by omega
        have : (2 : Nat) ^ 63 ≤ 2 ^ (m - 1) := Nat.pow_le_pow_right (by omega) h63
        omega
    exact ⟨m, hm0, hm63, by simpa using hm2⟩

lemma wf_resize {s : RingState} (newSize silenceByte : Nat) (hv : newSize ≤ 2 ^ 63) :
    wf (resize s newSize silenceByte) := by
  obtain ⟨k, hk1, hk63, hsz⟩ := roundUpPow2_spec newSize hv
  have hpos : 0 < roundUpPow2 newSize := by rw [hsz]; positivity
  refine ⟨⟨k, hk1, hk63, by simpa [resize, fillWithSilence, clear] using hsz⟩, ?_, ?_, ?_, ?_⟩ <;>
    simp [resize, fillWithSilence, clear, hpos]

/-- Claim C1.  For every `DirettaRingBuffer` whose capacity is a power of
two (as produced by `resize`, for any requested size up to `2^63`), and
after every sequence of the operations push, pop, push24BitPacked,
push16To32, pushDSDPlanar, commitDirectWrite, advanceReadPos and clear,
the one-slot-reserved capacity invariant
`getFreeSpace() + getAvailable() == capacity - 1` holds. -/
theorem c1_free_plus_available_invariant (newSize silenceByte : Nat)
    (ops : List Op) (hv : newSize ≤ 2 ^ 63) :
    getFreeSpace (runOps (resize initState newSize silenceByte) ops) +
      getAvailable (runOps (resize initState newSize silenceByte) ops) =
      (runOps (resize initState newSize silenceByte) ops).size - 1 :=
  free_add_avail (wf_runOps (wf_resize newSize silenceByte hv) ops)

/-- Witness for C1: a concrete run with every kind of operation on a
buffer resized to capacity 16. -/
theorem c1_free_plus_available_invariant_witness :
    1000 ≤ 2 ^ 63 ∧
      getFreeSpace (runOps (resize initState 1000 0)
          [Op.push [1, 2, 3], Op.pop 1, Op.commitDirect 2, Op.advanceRead 1,
           Op.push16 [5, 6], Op.clearOp, Op.push24 [7, 8, 9, 0],
           Op.pushDSD [1, 2, 3, 4, 5, 6, 7, 8] 2 none false]) +
        getAvailable (runOps (resize initState 1000 0)
          [Op.push [1, 2, 3], Op.pop 1, Op.commitDirect 2, Op.advanceRead 1,
           Op.push16 [5, 6], Op.clearOp, Op.push24 [7, 8, 9, 0],
           Op.pushDSD [1, 2, 3, 4, 5, 6, 7, 8] 2 none false]) =
        (runOps (resize initState 1000 0)
          [Op.push [1, 2, 3], Op.pop 1, Op.commitDirect 2, Op.advanceRead 1,
           Op.push16 [5, 6], Op.clearOp, Op.push24 [7, 8, 9, 0],
           Op.pushDSD [1, 2, 3, 4, 5, 6, 7, 8] 2 none false]).size - 1 :=
  ⟨by norm_num,
   c1_free_plus_available_invariant 1000 0
     [Op.push [1, 2, 3], Op.pop 1, Op.commitDirect 2, Op.advanceRead 1,
      Op.push16 [5, 6], Op.clearOp, Op.push24 [7, 8, 9, 0],
      Op.pushDSD [1, 2, 3, 4, 5, 6, 7, 8] 2 none false] (by norm_num)⟩

/-! ### The 24-bit repack conversions: vector loop = scalar tail = spec -/

lemma convert24Tail_unfold {src : List Nat} {n i : Nat} (h : i < n) :
    convert24Tail src (n - i) i = byte src (i * 4) :: byte src (i * 4 + 1) ::
      byte src (i * 4 + 2) :: convert24Tail src (n - (i + 1)) (i + 1) := by
  rw [show n - i = (n - (i + 1)) + 1 by omega]
  rfl

lemma conv24Body (src : List Nat) (i : Nat) :
    (pshufb (loadu256 src (i * 4)) shuffleMask24).take 12 ++
      ((pshufb (loadu256 src (i * 4)) shuffleMask24).drop 16).take 12 =
    [byte src (i * 4), byte src (i * 4 + 1), byte src (i * 4 + 2),
     byte src (i * 4 + 4), byte src (i * 4 + 5), byte src (i * 4 + 6),
     byte src (i * 4 + 8), byte src (i * 4 + 9), byte src (i * 4 + 10),
     byte src (i * 4 + 12), byte src (i * 4 + 13), byte src (i * 4 + 14),
     byte src (i * 4 + 16), byte src (i * 4 + 17), byte src (i * 4 + 18),
     byte src (i * 4 + 20), byte src (i * 4 + 21), byte src (i * 4 + 22),
     byte src (i * 4 + 24), byte src (i * 4 + 25), byte src (i * 4 + 26),
     byte src (i * 4 + 28), byte src (i * 4 + 29), byte src (i * 4 + 30)] := rfl

lemma convert24Vec_eq_tail (src : List Nat) (n : Nat) :
    ∀ fuel i, convert24Vec src n fuel i = convert24Tail src (n - i) i := by
  intro fuel
  induction fuel with
  | zero => intro i; rfl
  | succ f ih =>
    intro i
    rw [convert24Vec]
    split
    · next h =>
        rw [ih (i + 8)]
        simp only
        rw [conv24Body]
        rw [convert24Tail_unfold (show i < n by omega),
          convert24Tail_unfold (show i + 1 < n by omega),
          convert24Tail_unfold (show i + 1 + 1 < n by omega),
          convert24Tail_unfold (show i + 1 + 1 + 1 < n by omega),
          convert24Tail_unfold (show i + 1 + 1 + 1 + 1 < n by omega),
          convert24Tail_unfold (show i + 1 + 1 + 1 + 1 + 1 < n by omega),
          convert24Tail_unfold (show i + 1 + 1 + 1 + 1 + 1 + 1 < n by omega),
          convert24Tail_unfold (show i + 1 + 1 + 1 + 1 + 1 + 1 + 1 < n by omega)]
        simp only [List.cons_append, List.nil_append]
        ring_nf
    · rfl

lemma convert24ShiftedTail_unfold {src : List Nat} {n i : Nat} (h : i < n) :
    convert24ShiftedTail src (n - i) i = byte src (i * 4 + 1) :: byte src (i * 4 + 2) ::
      byte src (i * 4 + 3) :: convert24ShiftedTail src (n - (i + 1)) (i + 1) := by
  rw [show n - i = (n - (i + 1)) + 1 by omega]
  rfl

lemma conv24ShiftedBody (src : List Nat) (i : Nat) :
    (pshufb (loadu256 src (i * 4)) shuffleMask24Shifted).take 12 ++
      ((pshufb (loadu256 src (i * 4)) shuffleMask24Shifted).drop 16).take 12 =
    [byte src (i * 4 + 1), byte src (i * 4 + 2), byte src (i * 4 + 3),
     byte src (i * 4 + 5), byte src (i * 4 + 6), byte src (i * 4 + 7),
     byte src (i * 4 + 9), byte src (i * 4 + 10), byte src (i * 4 + 11),
     byte src (i * 4 + 13), byte src (i * 4 + 14), byte src (i * 4 + 15),
     byte src (i * 4 + 17), byte src (i * 4 + 18), byte src (i * 4 + 19),
     byte src (i * 4 + 21), byte src (i * 4 + 22), byte src (i * 4 + 23),
     byte src (i * 4 + 25), byte src (i * 4 + 26), byte src (i * 4 + 27),
     byte src (i * 4 + 29), byte src (i * 4 + 30), byte src (i * 4 + 31)] := rfl

lemma convert24ShiftedVec_eq_tail (src : List Nat) (n : Nat) :
    ∀ fuel i, convert24ShiftedVec src n fuel i = convert24ShiftedTail src (n - i) i := by
  intro fuel
  induction fuel with
  | zero => intro i; rfl
  | succ f ih =>
    intro i
    rw [convert24ShiftedVec]
    split
    · next h =>
        rw [ih (i + 8)]
        simp only
        rw [conv24ShiftedBody]
        rw [convert24ShiftedTail_unfold (show i < n by omega),
          convert24ShiftedTail_unfold (show i + 1 < n by omega),
          convert24ShiftedTail_unfold (show i + 1 + 1 < n by omega),
          convert24ShiftedTail_unfold (show i + 1 + 1 + 1 < n by omega),
          convert24ShiftedTail_unfold (show i + 1 + 1 + 1 + 1 < n by omega),
          convert24ShiftedTail_unfold (show i + 1 + 1 + 1 + 1 + 1 < n by omega),
          convert24ShiftedTail_unfold (show i + 1 + 1 + 1 + 1 + 1 + 1 < n by omega),
          convert24ShiftedTail_unfold (show i + 1 + 1 + 1 + 1 + 1 + 1 + 1 < n by omega)]
        simp only [List.cons_append, List.nil_append]
        ring_nf
    · rfl

lemma convert24Tail_length (src : List Nat) :
    ∀ c i, (convert24Tail src c i).length = 3 * c := by
  intro c
  induction c with
  | zero => intro i; rfl
  | succ c ih =>
      intro i
      simp only [convert24Tail, List.length_cons, ih (i + 1)]
      omega

lemma convert24ShiftedTail_length (src : List Nat) :
    ∀ c i, (convert24ShiftedTail src c i).length = 3 * c := by
  intro c
  induction c with
  | zero => intro i; rfl
  | succ c ih =>
      intro i
      simp only [convert24ShiftedTail, List.length_cons, ih (i + 1)]
      omega

lemma convert24Tail_eq_spec (src : List Nat) :
    ∀ c i, convert24Tail src c i =
      ((List.range' i c).map
        (fun j => [byte src (4 * j), byte src (4 * j + 1), byte src (4 * j + 2)])).flatten := by
  intro c
  induction c with
  | zero => intro i; rfl
  | succ c ih =>
      intro i
      rw [List.range'_succ]
      simp only [convert24Tail, ih (i + 1), List.map_cons, List.flatten_cons,
        List.cons_append, List.nil_append]
      ring_nf

lemma convert24ShiftedTail_eq_spec (src : List Nat) :
    ∀ c i, convert24ShiftedTail src c i =
      ((List.range' i c).map
        (fun j => [byte src (4 * j + 1), byte src (4 * j + 2), byte src (4 * j + 3)])).flatten := by
  intro c
  induction c with
  | zero => intro i; rfl
  | succ c ih =>
      intro i
      rw [List.range'_succ]
      simp only [convert24ShiftedTail, ih (i + 1), List.map_cons, List.flatten_cons,
        List.cons_append, List.nil_append]
      ring_nf

/-- Claim C3.  For every input of `n` 4-byte samples the repack produces
exactly `3 n` bytes; in LSB-aligned mode output sample `i` is input bytes
`(4 i, 4 i + 1, 4 i + 2)` and in MSB-aligned (shifted) mode it is bytes
`(4 i + 1, 4 i + 2, 4 i + 3)`; and each vectorized function equals its
pure scalar-tail loop run over all samples. -/
theorem c3_24bit_repack_spec (src : List Nat) (n : Nat) :
    (convert24BitPacked_AVX2 src n).length = 3 * n ∧
    convert24BitPacked_AVX2 src n =
      ((List.range n).map
        (fun j => [byte src (4 * j), byte src (4 * j + 1), byte src (4 * j + 2)])).flatten ∧
    (convert24BitPackedShifted_AVX2 src n).length = 3 * n ∧
    convert24BitPackedShifted_AVX2 src n =
      ((List.range n).map
        (fun j => [byte src (4 * j + 1), byte src (4 * j + 2), byte src (4 * j + 3)])).flatten ∧
    convert24BitPacked_AVX2 src n = convert24Tail src n 0 ∧
    convert24BitPackedShifted_AVX2 src n = convert24ShiftedTail src n 0 := by
  have h1 : convert24BitPacked_AVX2 src n = convert24Tail src n 0 := by
    have := convert24Vec_eq_tail src n n 0
    rwa [Nat.sub_zero] at this
  have h2 : convert24BitPackedShifted_AVX2 src n = convert24ShiftedTail src n 0 := by
    have := convert24ShiftedVec_eq_tail src n n 0
    rwa [Nat.sub_zero] at this
  refine ⟨?_, ?_, ?_, ?_, h1, h2⟩
  · rw [h1, convert24Tail_length]
  · rw [h1, convert24Tail_eq_spec, List.range_eq_range']
  · rw [h2, convert24ShiftedTail_length]
  · rw [h2, convert24ShiftedTail_eq_spec, List.range_eq_range']

/-! ### The 16-to-32 upsample conversion -/

lemma convert16Tail_unfold {src : List Nat} {n i : Nat} (h : i < n) :
    convert16Tail src (n - i) i = 0 :: 0 :: byte src (i * 2) :: byte src (i * 2 + 1) ::
      convert16Tail src (n - (i + 1)) (i + 1) := by
  rw [show n - i = (n - (i + 1)) + 1 by omega]
  rfl

set_option maxHeartbeats 2000000 in
lemma conv16Body (src : List Nat) (i : Nat) :
    (permute2x128_20 (unpacklo_epi16 (set1_epi8 0) (loadu256 src (i * 2)))
        (unpackhi_epi16 (set1_epi8 0) (loadu256 src (i * 2))) ++
      permute2x128_31 (unpacklo_epi16 (set1_epi8 0) (loadu256 src (i * 2)))
        (unpackhi_epi16 (set1_epi8 0) (loadu256 src (i * 2)))) =
    [0, 0, byte src (i * 2), byte src (i * 2 + 1),
     0, 0, byte src (i * 2 + 2), byte src (i * 2 + 3),
     0, 0, byte src (i * 2 + 4), byte src (i * 2 + 5),
     0, 0, byte src (i * 2 + 6), byte src (i * 2 + 7),
     0, 0, byte src (i * 2 + 8), byte src (i * 2 + 9),
     0, 0, byte src (i * 2 + 10), byte src (i * 2 + 11),
     0, 0, byte src (i * 2 + 12), byte src (i * 2 + 13),
     0, 0, byte src (i * 2 + 14), byte src (i * 2 + 15),
     0, 0, byte src (i * 2 + 16), byte src (i * 2 + 17),
     0, 0, byte src (i * 2 + 18), byte src (i * 2 + 19),
     0, 0, byte src (i * 2 + 20), byte src (i * 2 + 21),
     0, 0, byte src (i * 2 + 22), byte src (i * 2 + 23),
     0, 0, byte src (i * 2 + 24), byte src (i * 2 + 25),
     0, 0, byte src (i * 2 + 26), byte src (i * 2 + 27),
     0, 0, byte src (i * 2 + 28), byte src (i * 2 + 29),
     0, 0, byte src (i * 2 + 30), byte src (i * 2 + 31)] := rfl

lemma convert16Vec_eq_tail (src : List Nat) (n : Nat) :
    ∀ fuel i, convert16Vec src n fuel i = convert16Tail src (n - i) i := by
  intro fuel
  induction fuel with
  | zero => intro i; rfl
  | succ f ih =>
    intro i
    rw [convert16Vec]
    split
    · next h =>
        rw [ih (i + 16)]
        simp only
        rw [conv16Body]
        rw [convert16Tail_unfold (show i < n by omega),
          convert16Tail_unfold (show i + 1 < n by omega),
          convert16Tail_unfold (show i + 1 + 1 < n by omega),
          convert16Tail_unfold (show i + 1 + 1 + 1 < n by omega),
          convert16Tail_unfold (show i + 1 + 1 + 1 + 1 < n by omega),
          convert16Tail_unfold (show i + 1 + 1 + 1 + 1 + 1 < n by omega),
          convert16Tail_unfold (show i + 1 + 1 + 1 + 1 + 1 + 1 < n by omega),
          convert16Tail_unfold (show i + 1 + 1 + 1 + 1 + 1 + 1 + 1 < n by omega),
          convert16Tail_unfold (show i + 1 + 1 + 1 + 1 + 1 + 1 + 1 + 1 < n by omega),
          convert16Tail_unfold (show i + 1 + 1 + 1 + 1 + 1 + 1 + 1 + 1 + 1 < n by omega),
          convert16Tail_unfold (show i + 1 + 1 + 1 + 1 + 1 + 1 + 1 + 1 + 1 + 1 < n by omega),
          convert16Tail_unfold (show i + 1 + 1 + 1 + 1 + 1 + 1 + 1 + 1 + 1 + 1 + 1 < n by omega),
          convert16Tail_unfold (show i + 1 + 1 + 1 + 1 + 1 + 1 + 1 + 1 + 1 + 1 + 1 + 1 < n by omega),
          convert16Tail_unfold (show i + 1 + 1 + 1 + 1 + 1 + 1 + 1 + 1 + 1 + 1 + 1 + 1 + 1 < n by omega),
          convert16Tail_unfold (show i + 1 + 1 + 1 + 1 + 1 + 1 + 1 + 1 + 1 + 1 + 1 + 1 + 1 + 1 < n by omega),
          convert16Tail_unfold (show i + 1 + 1 + 1 + 1 + 1 + 1 + 1 + 1 + 1 + 1 + 1 + 1 + 1 + 1 + 1 < n by omega)]
        simp only [List.cons_append, List.nil_append]
        ring_nf
    · rfl

lemma convert16Tail_length (src : List Nat) :
    ∀ c i, (convert16Tail src c i).length = 4 * c := by
  intro c
  induction c with
  | zero => intro i; rfl
  | succ c ih =>
      intro i
      simp only [convert16Tail, List.length_cons, ih (i + 1)]
      omega

lemma convert16Tail_eq_spec (src : List Nat) :
    ∀ c i, convert16Tail src c i =
      ((List.range' i c).map
        (fun j => [0, 0, byte src (2 * j), byte src (2 * j + 1)])).flatten := by
  intro c
  induction c with
  | zero => intro i; rfl
  | succ c ih =>
      intro i
      rw [List.range'_succ]
      simp only [convert16Tail, ih (i + 1), List.map_cons, List.flatten_cons,
        List.cons_append, List.nil_append]
      ring_nf

/-- Claim C8.  For every input of `n` 2-byte samples, the 16-to-32
upsample produces exactly `4 n` bytes; output sample `i` is
`(0x00, 0x00, byte 2 i, byte 2 i + 1)` in that order, i.e. the 16-bit
value sits in the upper 16 bits of the little-endian 32-bit word with
the lower 16 bits zero; and the vectorized function equals its scalar
tail loop run over all samples. -/
theorem c8_16to32_upsample_spec (src : List Nat) (n : Nat) :
    (convert16To32_AVX2 src n).length = 4 * n ∧
    convert16To32_AVX2 src n =
      ((List.range n).map
        (fun j => [0, 0, byte src (2 * j), byte src (2 * j + 1)])).flatten ∧
    convert16To32_AVX2 src n = convert16Tail src n 0 := by
  have h1 : convert16To32_AVX2 src n = convert16Tail src n 0 := by
    have := convert16Vec_eq_tail src n n 0
    rwa [Nat.sub_zero] at this
  refine ⟨?_, ?_, h1⟩
  · rw [h1, convert16Tail_length]
  · rw [h1, convert16Tail_eq_spec, List.range_eq_range']

/-! ### Claim C10: a never-resized buffer is inert -/

/-- Claim C10.  On a buffer with capacity 0 (never resized) every public
operation is total, returns the empty result, and leaves the state
unchanged; `getDirectWriteRegion`/`getDirectReadRegion` report failure;
and `pushDSDPlanar` with `numChannels == 0` returns 0 on any state, so
its division by the channel count is always guarded. -/
theorem c10_unresized_safe (s : RingState) (h : s.size = 0) (data : List Nat)
    (len ch needed : Nat) (t : Option (Nat → Nat)) (swap : Bool) :
    getAvailable s = 0 ∧ getFreeSpace s = 0 ∧
    push s data = (s, 0) ∧ pop s len = (s, []) ∧
    push24BitPacked s data = (s, 0) ∧ push16To32 s data = (s, 0) ∧
    pushDSDPlanar s data ch t swap = (s, 0) ∧
    getDirectWriteRegion s needed = none ∧
    getDirectReadRegion s needed = none ∧
    (∀ s' : RingState, pushDSDPlanar s' data 0 t swap = (s', 0)) := by
  refine ⟨?_, ?_, ?_, ?_, ?_, ?_, ?_, ?_, ?_, ?_⟩
  · simp [getAvailable, h]
  · simp [getFreeSpace, h]
  · simp [push, getDirectWriteRegion, h]
  · simp [pop, h]
  · simp [push24BitPacked, h]
  · simp [push16To32, h]
  · simp [pushDSDPlanar, h]
  · simp [getDirectWriteRegion, h]
  · simp [getDirectReadRegion, h]
  · intro s'
    unfold pushDSDPlanar
    split
    · rfl
    · simp

/-- Witness for C10 at the default-constructed state. -/
theorem c10_unresized_safe_witness :
    getAvailable initState = 0 ∧ getFreeSpace initState = 0 ∧
    push initState [1, 2, 3] = (initState, 0) ∧ pop initState 5 = (initState, []) ∧
    push24BitPacked initState [1, 2, 3] = (initState, 0) ∧
    push16To32 initState [1, 2, 3] = (initState, 0) ∧
    pushDSDPlanar initState [1, 2, 3] 2 none false = (initState, 0) ∧
    getDirectWriteRegion initState 4 = none ∧
    getDirectReadRegion initState 4 = none ∧
    (∀ s' : RingState, pushDSDPlanar s' [1, 2, 3] 0 none false = (s', 0)) :=
  c10_unresized_safe initState rfl [1, 2, 3] 5 2 4 none false

/-! ### Claim C4: S24 alignment detection -/

/-- Claim C4.  For every nonempty window (the detector is only invoked
with at least one sample) of up to the first 32 samples: byte-0 never
zero and byte-3 always zero classifies LsbAligned; byte-0 always zero
and byte-3 not always zero classifies MsbAligned; both always zero
classifies Deferred; and both not always zero (each position witnesses a
non-zero byte) is ambiguous and defaults to LsbAligned. -/
theorem c4_alignment_detection (data : List Nat) (n : Nat) (hn : 1 ≤ n) :
    ((∀ i < min n 32, byte data (i * 4) ≠ 0) →
      (∀ i < min n 32, byte data (i * 4 + 3) = 0) →
        detectS24PackMode data n = .LsbAligned) /\
    ((∀ i < min n 32, byte data (i * 4) = 0) →
      (¬ ∀ i < min n 32, byte data (i * 4 + 3) = 0) →
        detectS24PackMode data n = .MsbAligned) /\
    ((∀ i < min n 32, byte data (i * 4) = 0) →
      (∀ i < min n 32, byte data (i * 4 + 3) = 0) →
        detectS24PackMode data n = .Deferred) /\
    ((¬ ∀ i < min n 32, byte data (i * 4) = 0) →
      (¬ ∀ i < min n 32, byte data (i * 4 + 3) = 0) →
        detectS24PackMode data n = .LsbAligned) := by
  have hA : ∀ f : Nat → Nat,
      ((List.range (min n 32)).all (fun i => f i == 0) = true) ↔
        ∀ i < min n 32, f i = 0 := by
    intro f
    simp [List.all_eq_true, List.mem_range]
  refine ⟨?_, ?_, ?_, ?_⟩
  · intro h0 h3
    have hL : ((List.range (min n 32)).all (fun i => byte data (i * 4) == 0)) = false := by
      rw [← Bool.not_eq_true, hA]
      intro hall
      exact h0 0 (by omega) (hall 0 (by omega))
    have hM : ((List.range (min n 32)).all (fun i => byte data (i * 4 + 3) == 0)) = true :=
      (hA _).mpr h3
    unfold detectS24PackMode
    simp [hL, hM]
  · intro h0 h3
    have hL := (hA fun i => byte data (i * 4)).mpr h0
    have hM : ((List.range (min n 32)).all (fun i => byte data (i * 4 + 3) == 0)) = false := by
      rw [← Bool.not_eq_true, hA]
      exact h3
    unfold detectS24PackMode
    simp [hL, hM]
  · intro h0 h3
    have hL := (hA fun i => byte data (i * 4)).mpr h0
    have hM := (hA fun i => byte data (i * 4 + 3)).mpr h3
    unfold detectS24PackMode
    simp [hL, hM]
  · intro h0 h3
    have hL : ((List.range (min n 32)).all (fun i => byte data (i * 4) == 0)) = false := by
      rw [← Bool.not_eq_true, hA]
      exact h0
    have hM : ((List.range (min n 32)).all (fun i => byte data (i * 4 + 3) == 0)) = false := by
      rw [← Bool.not_eq_true, hA]
      exact h3
    unfold detectS24PackMode
    simp [hL, hM]

/-- Witness for C4: a two-sample LSB-aligned window. -/
theorem c4_alignment_detection_witness :
    detectS24PackMode [1, 2, 3, 0, 5, 6, 7, 0] 2 = .LsbAligned :=
  (c4_alignment_detection [1, 2, 3, 0, 5, 6, 7, 0] 2 (by norm_num)).1
    (by decide) (by decide)


lemma writeToRing_mode (s : RingState) (staged : List Nat) :
    (writeToRing s staged).1.s24PackMode = s.s24PackMode := by
  unfold writeToRing
  simp only
  split
  · rfl
  · split <;> (split <;> rfl)

lemma writeToRing_hint (s : RingState) (staged : List Nat) :
    (writeToRing s staged).1.s24Hint = s.s24Hint := by
  unfold writeToRing
  simp only
  split
  · rfl
  · split <;> (split <;> rfl)

lemma writeToRing_conf (s : RingState) (staged : List Nat) :
    (writeToRing s staged).1.s24DetectionConfirmed = s.s24DetectionConfirmed := by
  unfold writeToRing
  simp only
  split
  · rfl
  · split <;> (split <;> rfl)

lemma writeToRing_defer (s : RingState) (staged : List Nat) :
    (writeToRing s staged).1.deferredSampleCount = s.deferredSampleCount := by
  unfold writeToRing
  simp only
  split
  · rfl
  · split <;> (split <;> rfl)

lemma push24_state_eq (s : RingState) (data : List Nat) (n' : Nat)
    (hsz : s.size ≠ 0)
    (hn' : n' = min (min (data.length / 4) (STAGING_SIZE / 3)) (getFreeSpace s / 3))
    (hpos : 1 ≤ n') :
    ∃ staged, (push24BitPacked s data).1 =
      (writeToRing (s24DetectUpdate s data n') staged).1 := by
  subst hn'
  unfold push24BitPacked
  rw [if_neg hsz]
  simp only
  rw [if_neg (by omega), if_neg (by omega)]
  exact ⟨_, rfl⟩

/-- Claim C5.  While pushes classify as Deferred (silence), the
deferred-sample count accumulates by the clamped sample count of each
push and the pack mode is unchanged; once the count exceeds the fixed
`DEFERRED_TIMEOUT_SAMPLES` threshold the mode force-resolves to the
supplied hint if present (else LsbAligned) and is marked confirmed; a
confirmed non-Unknown/Deferred mode is not re-evaluated by later pushes;
`clear()` resets the whole detection state and `setS24PackModeHint`
re-arms detection. -/
theorem c5_deferred_timeout (s : RingState) (data : List Nat) (n' : Nat)
    (hsz : s.size ≠ 0)
    (hn' : n' = min (min (data.length / 4) (STAGING_SIZE / 3)) (getFreeSpace s / 3))
    (hpos : 1 ≤ n') :
    (detectS24PackMode data n' = .Deferred →
      s.s24DetectionConfirmed = false →
      (s.s24PackMode = .Unknown ∨ s.s24PackMode = .Deferred ∨
        s.s24PackMode = s.s24Hint) →
      ((s.deferredSampleCount + n' ≤ DEFERRED_TIMEOUT_SAMPLES →
        (push24BitPacked s data).1.s24PackMode = s.s24PackMode ∧
        (push24BitPacked s data).1.s24DetectionConfirmed = false ∧
        (push24BitPacked s data).1.deferredSampleCount = s.deferredSampleCount + n') ∧
      (DEFERRED_TIMEOUT_SAMPLES < s.deferredSampleCount + n' →
        (push24BitPacked s data).1.s24PackMode =
          (if s.s24Hint ≠ .Unknown then s.s24Hint else .LsbAligned) ∧
        (push24BitPacked s data).1.s24DetectionConfirmed = true))) ∧
    (s.s24DetectionConfirmed = true → s.s24PackMode ≠ .Unknown →
      s.s24PackMode ≠ .Deferred →
      (push24BitPacked s data).1.s24PackMode = s.s24PackMode ∧
      (push24BitPacked s data).1.s24DetectionConfirmed = true ∧
      (push24BitPacked s data).1.s24Hint = s.s24Hint) ∧
    ((clear s).s24PackMode = .Unknown ∧ (clear s).s24Hint = .Unknown ∧
      (clear s).s24DetectionConfirmed = false ∧ (clear s).deferredSampleCount = 0) ∧
    (∀ hint, (setS24PackModeHint s hint).s24DetectionConfirmed = false ∧
      (setS24PackModeHint s hint).s24Hint = hint) := by
  obtain ⟨staged, hps⟩ := push24_state_eq s data n' hsz hn' hpos
  refine ⟨?_, ?_, ?_, ?_⟩
  · intro hdet hconfF hrun
    have hrun' : s.s24PackMode = .Unknown ∨ s.s24PackMode = .Deferred ∨
        (s.s24PackMode = s.s24Hint ∧ s.s24DetectionConfirmed = false) := by
      rcases hrun with h | h | h
      · exact Or.inl h
      · exact Or.inr (Or.inl h)
      · exact Or.inr (Or.inr ⟨h, hconfF⟩)
    have hu : s24DetectUpdate s data n' =
        (if DEFERRED_TIMEOUT_SAMPLES < s.deferredSampleCount + n' then
          { s with
            s24PackMode := if s.s24Hint ≠ .Unknown then s.s24Hint else .LsbAligned,
            s24DetectionConfirmed := true,
            deferredSampleCount := s.deferredSampleCount + n' }
        else { s with deferredSampleCount := s.deferredSampleCount + n' }) := by
      unfold s24DetectUpdate
      rw [if_pos hrun']
      simp only
      rw [if_neg (by simp [hdet])]
    constructor
    · intro hcnt
      have hcond : ¬ DEFERRED_TIMEOUT_SAMPLES < s.deferredSampleCount + n' := by omega
      rw [hu, if_neg hcond] at hps
      refine ⟨?_, ?_, ?_⟩
      · rw [hps, writeToRing_mode]
      · rw [hps, writeToRing_conf]
        exact hconfF
      · rw [hps, writeToRing_defer]
    · intro hcnt
      rw [hu, if_pos hcnt] at hps
      exact ⟨by rw [hps, writeToRing_mode], by rw [hps, writeToRing_conf]⟩
  · intro hconf hU hD
    have hu : s24DetectUpdate s data n' = s := by
      unfold s24DetectUpdate
      rw [if_neg (by simp [hU, hD, hconf])]
    rw [hu] at hps
    exact ⟨by rw [hps, writeToRing_mode], by
      rw [hps, writeToRing_conf, hconf], by rw [hps, writeToRing_hint]⟩
  · simp [clear]
  · intro hint
    constructor
    · unfold setS24PackModeHint
      simp only
      split <;> rfl
    · unfold setS24PackModeHint
      simp only
      split <;> rfl

/-- Witness for C5: a silent 2-sample push on a state one step below the
threshold crosses it and force-resolves to LsbAligned, confirmed. -/
theorem c5_deferred_timeout_witness :
    (push24BitPacked
        { resize initState 1024 0 with deferredSampleCount := 48000 }
        (List.replicate 8 0)).1.s24PackMode =
      (if ({ resize initState 1024 0 with deferredSampleCount := 48000 } :
            RingState).s24Hint ≠ .Unknown
        then ({ resize initState 1024 0 with deferredSampleCount := 48000 } :
            RingState).s24Hint
        else .LsbAligned) ∧
    (push24BitPacked { resize initState 1024 0 with deferredSampleCount := 48000 }
        (List.replicate 8 0)).1.s24DetectionConfirmed = true :=
  ((c5_deferred_timeout
      { resize initState 1024 0 with deferredSampleCount := 48000 }
      (List.replicate 8 0) 2 (by decide) (by decide) (by decide)).1
    (by decide) (by decide) (by decide)).2 (by decide)

/-! ### Byte-level characterisation of the ring writes -/

lemma byte_set (l : List Nat) (n m a : Nat) :
    byte (l.set n a) m = if n = m ∧ n < l.length then a else byte l m := by
  simp only [byte, List.getD_eq_getElem?_getD, List.getElem?_set]
  by_cases hnm : n = m
  · subst hnm
    by_cases hlt : n < l.length
    · simp [hlt]
    · simp [hlt, List.getElem?_eq_none (by omega : l.length ≤ n)]
  · simp [hnm]

lemma storeBytes_byte (data : List Nat) :
    ∀ buf pos p, pos + data.length ≤ buf.length →
      byte (storeBytes buf pos data) p =
        if pos ≤ p ∧ p < pos + data.length then byte data (p - pos) else byte buf p := by
  induction data with
  | nil =>
      intro buf pos p h
      rw [storeBytes, if_neg (by simp only [List.length_nil]; omega)]
  | cons b rest ih =>
      intro buf pos p h
      simp only [List.length_cons] at h ⊢
      rw [storeBytes]
      rw [ih (buf.set pos b) (pos + 1) p (by simpa using by omega)]
      rw [byte_set]
      by_cases hp1 : pos + 1 ≤ p ∧ p < pos + 1 + rest.length
      · rw [if_pos hp1, if_pos (by omega)]
        rw [show p - pos = (p - (pos + 1)) + 1 by omega]
        rfl
      · rw [if_neg hp1]
        by_cases hp2 : pos = p
        · have hpl : pos < buf.length := by omega
          rw [if_pos ⟨hp2, hpl⟩, if_pos (by omega)]
          rw [show p - pos = 0 by omega]
          rfl
        · rw [if_neg (by tauto), if_neg (by omega)]

lemma byte_take (l : List Nat) (n m : Nat) (h : m < n) :
    byte (l.take n) m = byte l m := by
  simp [byte, List.getD_eq_getElem?_getD, List.getElem?_take_of_lt h]

lemma byte_drop (l : List Nat) (n m : Nat) :
    byte (l.drop n) m = byte l (n + m) := by
  simp [byte, List.getD_eq_getElem?_getD, List.getElem?_drop]

/-- The combined effect of push's (at most) two `memcpy` calls: write `d`
starting at `wp`, wrapping at the end of the buffer. -/
def writeWrapped (buf : List Nat) (wp : Nat) (d : List Nat) : List Nat :=
  storeBytes (storeBytes buf wp (d.take (min d.length (buf.length - wp)))) 0
    (d.drop (min d.length (buf.length - wp)))

lemma writeWrapped_length (buf : List Nat) (wp : Nat) (d : List Nat) :
    (writeWrapped buf wp d).length = buf.length := by
  simp [writeWrapped, storeBytes_length]

lemma writeWrapped_byte (buf : List Nat) (wp : Nat) (d : List Nat) (p fc : Nat)
    (hfc : fc = min d.length (buf.length - wp))
    (hwp : wp < buf.length) (hd : d.length + 1 ≤ buf.length) :
    byte (writeWrapped buf wp d) p =
      if wp ≤ p ∧ p < wp + fc then byte d (p - wp)
      else if p < d.length - fc then byte d (fc + p)
      else byte buf p := by
  rw [writeWrapped, ← hfc]
  rw [storeBytes_byte (d.drop fc) _ 0 p
    (by simp [storeBytes_length, List.length_drop]; omega)]
  rw [storeBytes_byte (d.take fc) buf wp p
    (by simp [List.length_take]; omega)]
  by_cases h1 : wp ≤ p ∧ p < wp + fc
  · have hnd : ¬ (0 ≤ p ∧ p < 0 + (d.drop fc).length) := by
      simp only [List.length_drop]
      omega
    rw [if_neg hnd, if_pos (by simp [List.length_take]; omega), if_pos h1]
    rw [byte_take _ _ _ (by omega)]
  · by_cases h2 : p < d.length - fc
    · rw [if_pos (by simp [List.length_drop]; omega)]
      rw [if_neg h1, if_pos h2, byte_drop, Nat.sub_zero]
    · rw [if_neg (by simp [List.length_drop]; omega),
        if_neg (by simp [List.length_take]; omega), if_neg h1, if_neg h2]

lemma mod_two_cases {x m : Nat} (_hm : 0 < m) (h : x < 2 * m) :
    x % m = if x < m then x else x - m := by
  split
  · exact Nat.mod_eq_of_lt (by omega)
  · rw [Nat.mod_eq_sub_mod (by omega), Nat.mod_eq_of_lt (by omega)]

lemma masked_self {s : RingState} (h : wf s) {x : Nat} (hx : x < s.size) :
    x &&& s.mask = x := by
  obtain ⟨⟨k, _, _, hsz⟩, hmask, _, _, _⟩ := h
  rw [hmask, hsz, Nat.and_pow_two_sub_one_eq_mod]
  exact Nat.mod_eq_of_lt (hsz ▸ hx)

lemma masked_eq_mod {s : RingState} (h : wf s) (x : Nat) :
    x &&& s.mask = x % s.size := by
  obtain ⟨⟨k, _, _, hsz⟩, hmask, _, _, _⟩ := h
  rw [hmask, hsz, Nat.and_pow_two_sub_one_eq_mod]

lemma writeWrapped_nil (buf : List Nat) (wp : Nat) :
    writeWrapped buf wp [] = buf := by
  simp [writeWrapped, storeBytes]

lemma writeWrapped_nowrap (buf : List Nat) (wp : Nat) (d : List Nat)
    (h : d.length ≤ buf.length - wp) :
    writeWrapped buf wp d = storeBytes buf wp d := by
  rw [writeWrapped, min_eq_left h, List.take_length, List.drop_length]
  rfl

end Diretta
namespace Diretta

lemma push_untruncated {s : RingState} (h : wf s) (data : List Nat)
    (hfit : data.length ≤ getFreeSpace s) :
    push s data =
      ({ s with
          buffer := writeWrapped s.buffer s.writePos data,
          writePos := (s.writePos + data.length) &&& s.mask }, data.length) := by
  have hsz : s.size ≠ 0 := by
    have := size_two_le h
    omega
  have hlen : s.buffer.length = s.size := h.2.2.2.2
  have hwp : s.writePos < s.size := h.2.2.1
  have hfree : getFreeSpace s = wsub (wsub s.readPos s.writePos) 1 &&& s.mask := by
    rw [getFreeSpace, if_neg hsz]
  unfold push
  cases hD : getDirectWriteRegion s data.length with
  | some v =>
      unfold getDirectWriteRegion at hD
      rw [if_neg hsz] at hD
      simp only at hD
      split at hD
      · next hcont =>
          cases hD
          simp only
          rw [writeWrapped_nowrap s.buffer s.writePos data (by omega)]
          rfl
      · exact absurd hD (by simp)
  | none =>
      simp only
      rw [if_neg hsz]
      rw [← hfree]
      rw [min_eq_left hfit]
      by_cases h0 : data.length = 0
      · rw [if_pos h0]
        have hdata : data = [] := List.length_eq_zero.mp h0
        subst hdata
        rw [writeWrapped_nil]
        rw [show s.writePos + ([] : List Nat).length = s.writePos by simp]
        rw [masked_self h hwp]
        rfl
      · rw [if_neg h0]
        rw [List.take_length]
        have hfc : min data.length (s.size - s.writePos) =
            min data.length (s.buffer.length - s.writePos) := by rw [hlen]
        by_cases hsplit : min data.length (s.size - s.writePos) < data.length
        · rw [if_pos hsplit]
          rw [writeWrapped, ← hfc]
        · rw [if_neg hsplit]
          rw [writeWrapped_nowrap s.buffer s.writePos data (by omega)]
          rw [hfc, show min data.length (s.buffer.length - s.writePos) = data.length by
            omega, List.take_length]

lemma push_result {s : RingState} (h : wf s) (data : List Nat) :
    (push s data).2 = min data.length (getFreeSpace s) := by
  have hsz : s.size ≠ 0 := by
    have := size_two_le h
    omega
  have hfree : getFreeSpace s = wsub (wsub s.readPos s.writePos) 1 &&& s.mask := by
    rw [getFreeSpace, if_neg hsz]
  unfold push
  cases hD : getDirectWriteRegion s data.length with
  | some v =>
      unfold getDirectWriteRegion at hD
      rw [if_neg hsz] at hD
      simp only at hD
      split at hD
      · next hcont =>
          cases hD
          simp only
          omega
      · exact absurd hD (by simp)
  | none =>
      simp only
      rw [if_neg hsz, ← hfree]
      split
      · next hz =>
          simp only
          omega
      · rfl

end Diretta
namespace Diretta

/-- The queue abstraction of a ring buffer: the available bytes starting
at the read cursor. -/
def contents (s : RingState) : List Nat :=
  (List.range (getAvailable s)).map (fun j => byte s.buffer ((s.readPos + j) % s.size))

lemma contents_length (s : RingState) : (contents s).length = getAvailable s := by
  simp [contents]

lemma avail_formula_of_wf {s : RingState} (h : wf s) :
    getAvailable s =
      if s.readPos ≤ s.writePos then s.writePos - s.readPos
      else s.writePos + s.size - s.readPos := getAvailable_eq h

lemma getAvailable_shift {s : RingState} (h : wf s) (t : RingState) (len : Nat)
    (hlen : len ≤ getFreeSpace s)
    (h1 : t.size = s.size) (h2 : t.mask = s.mask) (h3 : t.readPos = s.readPos)
    (h4 : t.writePos = (s.writePos + len) &&& s.mask) :
    getAvailable t = getAvailable s + len := by
  obtain ⟨⟨k, hk1, hk63, hsz⟩, hmask, hwp, hrp, hblen⟩ := h
  have h' : wf s := ⟨⟨k, hk1, hk63, hsz⟩, hmask, hwp, hrp, hblen⟩
  have hdvd : (2 : Nat) ^ k ∣ W := pow_dvd_pow 2 (by omega)
  have hp : 0 < (2 : Nat) ^ k := by positivity
  have hfree := getFreeSpace_eq h'
  have hA := getAvailable_eq h'
  have hszpos : s.size ≠ 0 := by omega
  have htszpos : t.size ≠ 0 := by rw [h1]; omega
  have hwp' : t.writePos = (s.writePos + len) % (2 ^ k) := by
    rw [h4, masked_eq_mod h', hsz]
  have hwplt : t.writePos < 2 ^ k := by
    rw [hwp']
    exact Nat.mod_lt _ (by omega)
  rw [hA] at hfree
  rw [hfree] at hlen
  unfold getAvailable wsub
  rw [if_neg htszpos, if_neg hszpos, h2, h3, hmask, hsz,
    Nat.and_pow_two_sub_one_eq_mod, Nat.and_pow_two_sub_one_eq_mod]
  rw [availFormula hdvd hwplt (hsz ▸ hrp), availFormula hdvd (hsz ▸ hwp) (hsz ▸ hrp)]
  rw [hwp', mod_two_cases (by omega) (by omega)]
  rw [hsz] at hlen
  split_ifs at hlen ⊢ <;> omega

lemma contents_getElem (s : RingState) (i : Nat) (h : i < (contents s).length) :
    (contents s)[i] = byte s.buffer ((s.readPos + i) % s.size) := by
  simp [contents]

lemma byte_getElem (l : List Nat) (i : Nat) (h : i < l.length) : byte l i = l[i] := by
  simp [byte, List.getD_eq_getElem?_getD, List.getElem?_eq_getElem h]

theorem push_contents {s : RingState} (h : wf s) (data : List Nat)
    (hfit : data.length ≤ getFreeSpace s) :
    contents (push s data).1 = contents s ++ data := by
  have hfree := getFreeSpace_eq h
  have hA := getAvailable_eq h
  have hAlt := getAvailable_lt h
  have hsz2 := size_two_le h
  have hmask := h.2.1
  have hwp := h.2.2.1
  have hrp := h.2.2.2.1
  have hblen := h.2.2.2.2
  rw [push_untruncated h data hfit]
  have hAT : getAvailable
      ({ s with
          buffer := writeWrapped s.buffer s.writePos data,
          writePos := (s.writePos + data.length) &&& s.mask }) =
      getAvailable s + data.length :=
    getAvailable_shift h _ data.length hfit rfl rfl rfl rfl
  apply List.ext_getElem
  · simp [contents_length, hAT, List.length_append]
  · intro i h1 h2
    rw [contents_getElem _ i h1]
    have hi2 : i < getAvailable s + data.length := by
      have := h1
      rw [contents_length, hAT] at this
      exact this
    rw [show ({ s with
          buffer := writeWrapped s.buffer s.writePos data,
          writePos := (s.writePos + data.length) &&& s.mask } : RingState).buffer =
        writeWrapped s.buffer s.writePos data from rfl]
    rw [writeWrapped_byte s.buffer s.writePos data ((s.readPos + i) % s.size)
      (min data.length (s.buffer.length - s.writePos)) rfl (by omega) (by omega)]
    have hfc : min data.length (s.buffer.length - s.writePos) =
        min data.length (s.size - s.writePos) := by rw [hblen]
    rw [hfc]
    by_cases hi : i < getAvailable s
    · rw [List.getElem_append_left (by simpa [contents_length] using hi)]
      rw [contents_getElem s i (by simpa [contents_length] using hi)]
      rw [mod_two_cases (by omega) (by omega)]
      split_ifs at hA ⊢ <;> first | rfl | (exfalso; omega) | (congr 1 <;> omega)
    · rw [List.getElem_append_right (by simpa [contents_length] using hi)]
      simp only [contents_length]
      rw [← byte_getElem data _ (by simp at h2; omega)]
      rw [mod_two_cases (by omega) (by omega)]
      split_ifs at hA ⊢ <;> first | rfl | (exfalso; omega) | (congr 1 <;> omega)

lemma getAvailable_rshift {s : RingState} (h : wf s) (t : RingState) (n : Nat)
    (hn : n ≤ getAvailable s)
    (h1 : t.size = s.size) (h2 : t.mask = s.mask) (h3 : t.writePos = s.writePos)
    (h4 : t.readPos = (s.readPos + n) &&& s.mask) :
    getAvailable t = getAvailable s - n := by
  obtain ⟨⟨k, hk1, hk63, hsz⟩, hmask, hwp, hrp, hblen⟩ := h
  have h' : wf s := ⟨⟨k, hk1, hk63, hsz⟩, hmask, hwp, hrp, hblen⟩
  have hdvd : (2 : Nat) ^ k ∣ W := pow_dvd_pow 2 (by omega)
  have hp : 0 < (2 : Nat) ^ k := by positivity
  have hA := getAvailable_eq h'
  have hszpos : s.size ≠ 0 := by omega
  have htszpos : t.size ≠ 0 := by rw [h1]; omega
  have hrp' : t.readPos = (s.readPos + n) % (2 ^ k) := by
    rw [h4, masked_eq_mod h', hsz]
  have hrplt : t.readPos < 2 ^ k := by
    rw [hrp']
    exact Nat.mod_lt _ (by omega)
  have hnlt : n < s.size := by
    have := getAvailable_lt h'
    omega
  have hb2 : s.readPos + n < 2 * 2 ^ k := by
    rw [← hsz]
    omega
  rw [hA] at hn
  unfold getAvailable wsub
  rw [if_neg htszpos, if_neg hszpos, h2, h3, hmask, hsz,
    Nat.and_pow_two_sub_one_eq_mod, Nat.and_pow_two_sub_one_eq_mod]
  rw [availFormula hdvd (hsz ▸ hwp) hrplt, availFormula hdvd (hsz ▸ hwp) (hsz ▸ hrp)]
  rw [hrp', mod_two_cases (by omega) hb2]
  rw [hsz] at hn
  split_ifs at hn ⊢ <;> omega

theorem pop_spec {s : RingState} (h : wf s) (n : Nat) (hn : n ≤ getAvailable s) :
    (pop s n).2 = (contents s).take n ∧
    contents (pop s n).1 = (contents s).drop n := by
  have hA := getAvailable_eq h
  have hAlt := getAvailable_lt h
  have hsz2 := size_two_le h
  have hmask := h.2.1
  have hwp := h.2.2.1
  have hrp := h.2.2.2.1
  have hblen := h.2.2.2.2
  have hszpos : s.size ≠ 0 := by omega
  have hav : wsub s.writePos s.readPos &&& s.mask = getAvailable s := by
    rw [getAvailable, if_neg hszpos]
  unfold pop
  rw [if_neg hszpos]
  simp only
  rw [hav, min_eq_left hn]
  by_cases h0 : n = 0
  · subst h0
    rw [if_pos rfl]
    constructor
    · simp
    · simp
  · rw [if_neg h0]
    constructor
    · apply List.ext_getElem
      · simp only [List.length_append, List.length_take, List.length_drop, hblen,
          contents_length]
        omega
      · intro i h1 h2
        have hi : i < n := by
          simp only [List.length_append, List.length_take, List.length_drop, hblen] at h1
          omega
        rw [List.getElem_take]
        rw [contents_getElem s i (by rw [contents_length]; omega)]
        by_cases hif : i < min n (s.size - s.readPos)
        · rw [List.getElem_append_left (by
            simp only [List.length_take, List.length_drop, hblen]
            omega)]
          rw [List.getElem_take, List.getElem_drop]
          rw [← byte_getElem s.buffer _ (by rw [hblen]; omega)]
          congr 1
          rw [Nat.mod_eq_of_lt (by omega)]
        · rw [List.getElem_append_right (by
            simp only [List.length_take, List.length_drop, hblen]
            omega)]
          rw [List.getElem_take]
          rw [← byte_getElem s.buffer _ (by rw [hblen]; omega)]
          congr 1
          simp only [List.length_take, List.length_drop, hblen]
          rw [mod_two_cases (by omega) (by omega)]
          split_ifs <;> omega
    · apply List.ext_getElem
      · simp only [contents_length, List.length_drop]
        exact getAvailable_rshift h _ n hn rfl rfl rfl rfl
      · intro i h1 h2
        rw [contents_getElem _ i h1]
        rw [List.getElem_drop]
        rw [contents_getElem s (n + i) (by
          simp only [contents_length, List.length_drop] at h2 ⊢
          omega)]
        simp only
        rw [masked_eq_mod h]
        congr 1
        rw [Nat.mod_add_mod]
        congr 1
        omega

/-- Fold of `push` over a list of chunks, keeping only the state. -/
def pushAll (s : RingState) (chunks : List (List Nat)) : RingState :=
  chunks.foldl (fun s c => (push s c).1) s

/-- Every push in the sequence returned its full length (no truncation). -/
def pushedOk (s : RingState) : List (List Nat) → Prop
  | [] => True
  | c :: rest => (push s c).2 = c.length ∧ pushedOk (push s c).1 rest

/-- Pop a sequence of lengths, collecting the returned chunks. -/
def popAll (s : RingState) : List Nat → RingState × List (List Nat)
  | [] => (s, [])
  | n :: rest =>
      let r := pop s n
      let r2 := popAll r.1 rest
      (r2.1, r.2 :: r2.2)

lemma pushAll_contents :
    ∀ chunks (s : RingState), wf s → pushedOk s chunks →
      wf (pushAll s chunks) ∧
        contents (pushAll s chunks) = contents s ++ chunks.flatten := by
  intro chunks
  induction chunks with
  | nil =>
      intro s h _
      exact ⟨h, by simp [pushAll]⟩
  | cons c rest ih =>
      intro s h hok
      obtain ⟨hc, hrest⟩ := hok
      have hfit : c.length ≤ getFreeSpace s := by
        have := push_result h c
        omega
      have hwf2 := wf_push h c
      obtain ⟨hw2, hc2⟩ := ih (push s c).1 hwf2 hrest
      refine ⟨hw2, ?_⟩
      rw [show pushAll s (c :: rest) = pushAll (push s c).1 rest from rfl]
      rw [hc2, push_contents h c hfit]
      simp [List.append_assoc]

lemma popAll_spec :
    ∀ chunks (s : RingState), wf s → contents s = chunks.flatten →
      (popAll s (chunks.map List.length)).2 = chunks := by
  intro chunks
  induction chunks with
  | nil => intro s h hc; rfl
  | cons c rest ih =>
      intro s h hc
      have hle : c.length ≤ getAvailable s := by
        have h1 : (contents s).length = getAvailable s := contents_length s
        rw [hc] at h1
        simp only [List.flatten_cons, List.length_append] at h1
        omega
      obtain ⟨h1, h2⟩ := pop_spec h c.length hle
      have htake : (pop s c.length).2 = c := by
        rw [h1, hc, List.flatten_cons, List.take_left]
      have hdrop : contents (pop s c.length).1 = rest.flatten := by
        rw [h2, hc, List.flatten_cons, List.drop_left]
      rw [show (c :: rest).map List.length = c.length :: rest.map List.length from rfl]
      rw [show popAll s (c.length :: rest.map List.length) =
        ((popAll (pop s c.length).1 (rest.map List.length)).1,
          (pop s c.length).2 :: (popAll (pop s c.length).1 (rest.map List.length)).2)
        from rfl]
      simp only
      rw [htake, ih (pop s c.length).1 (wf_pop h c.length) hdrop]

end Diretta
namespace Diretta

/-- The wraparound scenario of the spec: capacity 1024, push 900 bytes
(of value 7), pop 800. -/
def ringScenario0 : RingState := resize initState 1024 0

def ringScenario1 : RingState := (push ringScenario0 (List.replicate 900 7)).1

def ringScenario2 : RingState := (pop ringScenario1 800).1

/-- After additionally pushing 200 bytes labeled 0..199. -/
def ringScenario3 : RingState := (push ringScenario2 (List.range 200)).1

lemma ringScenario0_wf : wf ringScenario0 := wf_resize 1024 0 (by norm_num)

lemma ringScenario0_avail : getAvailable ringScenario0 = 0 := by decide

lemma ringScenario0_contents : contents ringScenario0 = [] := by
  rw [contents, ringScenario0_avail]
  rfl

lemma ringScenario0_free : getFreeSpace ringScenario0 = 1023 := by
  rw [getFreeSpace_eq ringScenario0_wf, ringScenario0_avail]
  decide

lemma ringScenario1_wf : wf ringScenario1 := wf_push ringScenario0_wf _

lemma ringScenario1_contents : contents ringScenario1 = List.replicate 900 7 := by
  rw [ringScenario1, push_contents ringScenario0_wf _ (by
    rw [ringScenario0_free, List.length_replicate]
    omega), ringScenario0_contents]
  rw [List.nil_append]

lemma ringScenario1_avail : getAvailable ringScenario1 = 900 := by
  rw [← contents_length, ringScenario1_contents, List.length_replicate]

lemma ringScenario2_wf : wf ringScenario2 := wf_pop ringScenario1_wf _

lemma ringScenario2_contents : contents ringScenario2 = List.replicate 100 7 := by
  rw [ringScenario2, (pop_spec ringScenario1_wf 800 (by rw [ringScenario1_avail]; omega)).2,
    ringScenario1_contents, List.drop_replicate]

lemma ringScenario2_avail : getAvailable ringScenario2 = 100 := by
  rw [← contents_length, ringScenario2_contents, List.length_replicate]

set_option maxRecDepth 40000 in
lemma ringScenario2_free : getFreeSpace ringScenario2 = 923 := by
  rw [getFreeSpace_eq ringScenario2_wf, ringScenario2_avail]
  have hsz : ringScenario2.size = 1024 := by decide
  rw [hsz]

lemma ringScenario3_wf : wf ringScenario3 := wf_push ringScenario2_wf _

lemma ringScenario3_contents :
    contents ringScenario3 = List.replicate 100 7 ++ List.range 200 := by
  rw [ringScenario3, push_contents ringScenario2_wf _ (by
    rw [ringScenario2_free, List.length_range]
    omega), ringScenario2_contents]

lemma ringScenario3_avail : getAvailable ringScenario3 = 300 := by
  rw [← contents_length, ringScenario3_contents, List.length_append,
    List.length_replicate, List.length_range]

/-- Claim C2, corrected.  Push appends exactly the pushed bytes to the
queue of buffered bytes whenever it reports no truncation; pop removes
from the front, returning exactly the oldest bytes; hence any sequence
of untruncated pushes popped in the same chunking returns the chunks
unchanged.  In the spec's wraparound scenario (capacity 1024, push 900,
pop 800, push labels 0..199) the 100 not-yet-popped bytes of the first
push still precede the labels, so the labels are read back in order
after those 100 bytes are popped. -/
theorem c2_fifo_round_trip :
    (∀ (s : RingState) (data : List Nat), wf s → (push s data).2 = data.length →
        contents (push s data).1 = contents s ++ data) ∧
    (∀ (s : RingState) (n : Nat), wf s → n ≤ getAvailable s →
        (pop s n).2 = (contents s).take n ∧
          contents (pop s n).1 = (contents s).drop n) ∧
    (∀ (s : RingState) (chunks : List (List Nat)), wf s → contents s = [] →
        pushedOk s chunks →
        (popAll (pushAll s chunks) (chunks.map List.length)).2 = chunks) ∧
    (pop (pop ringScenario3 100).1 200).2 = List.range 200 := by
  refine ⟨?_, ?_, ?_, ?_⟩
  · intro s data hwf hres
    have := push_result hwf data
    exact push_contents hwf data (by omega)
  · intro s n hwf hn
    exact pop_spec hwf n hn
  · intro s chunks hwf hc hok
    have h1 := pushAll_contents chunks s hwf hok
    exact popAll_spec chunks _ h1.1 (by rw [h1.2, hc, List.nil_append])
  · have h4 : contents (pop ringScenario3 100).1 = List.range 200 := by
      rw [(pop_spec ringScenario3_wf 100 (by rw [ringScenario3_avail]; omega)).2,
        ringScenario3_contents]
      rw [List.drop_left' (by rw [List.length_replicate])]
    have hwf4 : wf (pop ringScenario3 100).1 := wf_pop ringScenario3_wf _
    rw [(pop_spec hwf4 200 (by rw [← contents_length, h4, List.length_range])).1,
      h4]
    rw [show (200 : Nat) = (List.range 200).length by rw [List.length_range]]
    exact List.take_length _

/-- Counterexample to C2 as literally stated: after push 900 / pop 800 /
push labels 0..199, popping the next 200 bytes does not yield 0..199 —
the first 100 bytes popped are the remainder of the first push. -/
theorem c2_fifo_round_trip_counterexample :
    (pop ringScenario3 200).2 ≠ List.range 200 := by
  rw [(pop_spec ringScenario3_wf 200 (by rw [ringScenario3_avail]; omega)).1,
    ringScenario3_contents]
  decide

/-- Witness for C2: a concrete untruncated push appends its bytes. -/
theorem c2_fifo_round_trip_witness :
    contents (push (resize initState 16 0) [1, 2, 3]).1 =
      contents (resize initState 16 0) ++ [1, 2, 3] :=
  c2_fifo_round_trip.1 (resize initState 16 0) [1, 2, 3]
    (wf_resize 16 0 (by norm_num)) (by decide)

end Diretta
namespace Diretta

/-! ### Truncation bookkeeping of the push family (claim C6) -/

lemma writeToRing_avail_eq {s : RingState} (h : wf s) :
    (if s.writePos < s.readPos then s.readPos - s.writePos - 1
     else s.buffer.length - s.writePos + s.readPos - 1) = getFreeSpace s := by
  have hwp := h.2.2.1
  have hrp := h.2.2.2.1
  have hblen := h.2.2.2.2
  have hsz2 := size_two_le h
  rw [getFreeSpace_eq h, getAvailable_eq h, hblen]
  split_ifs <;> omega

lemma writeToRing_spec {s : RingState} (h : wf s) (staged : List Nat) :
    (writeToRing s staged).2 = min staged.length (getFreeSpace s) ∧
    (writeToRing s staged).1.size = s.size ∧
    (writeToRing s staged).1.mask = s.mask ∧
    (writeToRing s staged).1.readPos = s.readPos ∧
    (writeToRing s staged).1.writePos =
      (s.writePos + (writeToRing s staged).2) &&& s.mask := by
  have hwp := h.2.2.1
  have hsz2 := size_two_le h
  have hblen := h.2.2.2.2
  unfold writeToRing
  simp only
  split
  · next hc =>
      have hstag : staged.length = 0 := by
        rcases hc with hc | hc <;> omega
      refine ⟨by simp [hstag], rfl, rfl, rfl, ?_⟩
      show s.writePos = (s.writePos + 0) &&& s.mask
      rw [Nat.add_zero, masked_self h hwp]
  · rw [writeToRing_avail_eq h]
    split
    · next hlen0 =>
        refine ⟨by omega, rfl, rfl, rfl, ?_⟩
        show s.writePos = (s.writePos + 0) &&& s.mask
        rw [Nat.add_zero, masked_self h hwp]
    · exact ⟨rfl, rfl, rfl, rfl, rfl⟩

lemma writeToRing_avail {s : RingState} (h : wf s) (staged : List Nat) :
    getAvailable (writeToRing s staged).1 =
      getAvailable s + (writeToRing s staged).2 := by
  obtain ⟨hres, h1, h2, h3, h4⟩ := writeToRing_spec h staged
  exact getAvailable_shift h _ _ (by omega) h1 h2 h3 h4

lemma push_fields {s : RingState} (h : wf s) (data : List Nat) :
    (push s data).1.size = s.size ∧ (push s data).1.mask = s.mask ∧
    (push s data).1.readPos = s.readPos ∧
    (push s data).1.writePos = (s.writePos + (push s data).2) &&& s.mask := by
  have hsz : s.size ≠ 0 := by
    have := size_two_le h
    omega
  have hwp := h.2.2.1
  unfold push
  cases hD : getDirectWriteRegion s data.length with
  | some v =>
      simp only
      exact ⟨rfl, rfl, rfl, rfl⟩
  | none =>
      simp only
      rw [if_neg hsz]
      split
      · refine ⟨rfl, rfl, rfl, ?_⟩
        show s.writePos = (s.writePos + 0) &&& s.mask
        rw [Nat.add_zero, masked_self h hwp]
      · exact ⟨rfl, rfl, rfl, rfl⟩

lemma push_avail {s : RingState} (h : wf s) (data : List Nat) :
    getAvailable (push s data).1 = getAvailable s + (push s data).2 := by
  obtain ⟨h1, h2, h3, h4⟩ := push_fields h data
  have hres := push_result h data
  exact getAvailable_shift h _ _ (by omega) h1 h2 h3 h4

lemma convert24BitPacked_AVX2_length (src : List Nat) (n : Nat) :
    (convert24BitPacked_AVX2 src n).length = 3 * n := by
  unfold convert24BitPacked_AVX2
  rw [convert24Vec_eq_tail, Nat.sub_zero, convert24Tail_length]

lemma convert24BitPackedShifted_AVX2_length (src : List Nat) (n : Nat) :
    (convert24BitPackedShifted_AVX2 src n).length = 3 * n := by
  unfold convert24BitPackedShifted_AVX2
  rw [convert24ShiftedVec_eq_tail, Nat.sub_zero, convert24ShiftedTail_length]

lemma convert16To32_AVX2_length (src : List Nat) (n : Nat) :
    (convert16To32_AVX2 src n).length = 4 * n := by
  unfold convert16To32_AVX2
  rw [convert16Vec_eq_tail, Nat.sub_zero, convert16Tail_length]

lemma s24DetectUpdate_free (s : RingState) (data : List Nat) (n : Nat) :
    getFreeSpace (s24DetectUpdate s data n) = getFreeSpace s := by
  obtain ⟨e1, e2, e3, e4, _⟩ := s24DetectUpdate_core s data n
  unfold getFreeSpace wsub
  rw [e1, e2, e3, e4]

lemma s24DetectUpdate_avail (s : RingState) (data : List Nat) (n : Nat) :
    getAvailable (s24DetectUpdate s data n) = getAvailable s := by
  obtain ⟨e1, e2, e3, e4, _⟩ := s24DetectUpdate_core s data n
  unfold getAvailable wsub
  rw [e1, e2, e3, e4]

lemma push24_eq (s : RingState) (data : List Nat) (n' : Nat)
    (hsz : s.size ≠ 0)
    (hn' : n' = min (min (data.length / 4) (STAGING_SIZE / 3)) (getFreeSpace s / 3))
    (hpos : 1 ≤ n') :
    ∃ staged : List Nat, staged.length = 3 * n' ∧
      push24BitPacked s data =
        ((writeToRing (s24DetectUpdate s data n') staged).1,
         (writeToRing (s24DetectUpdate s data n') staged).2 / 3 * 4) := by
  subst hn'
  unfold push24BitPacked
  rw [if_neg hsz]
  simp only
  rw [if_neg (by omega), if_neg (by omega)]
  refine ⟨_, ?_, rfl⟩
  split_ifs <;>
    first
      | exact convert24BitPackedShifted_AVX2_length data _
      | exact convert24BitPacked_AVX2_length data _

lemma push24_c6 {s : RingState} (h : wf s) (data : List Nat) :
    4 ∣ (push24BitPacked s data).2 ∧
    (push24BitPacked s data).2 ≤ data.length ∧
    (push24BitPacked s data).2 / 4 * 3 ≤ getFreeSpace s ∧
    getAvailable (push24BitPacked s data).1 =
      getAvailable s + (push24BitPacked s data).2 / 4 * 3 := by
  have hsz : s.size ≠ 0 := by
    have := size_two_le h
    omega
  by_cases hpos : 1 ≤ min (min (data.length / 4) (STAGING_SIZE / 3)) (getFreeSpace s / 3)
  · obtain ⟨staged, hlen, heq⟩ := push24_eq s data _ hsz rfl hpos
    set n' := min (min (data.length / 4) (STAGING_SIZE / 3)) (getFreeSpace s / 3) with hn'
    obtain ⟨e1, e2, e3, e4, e5⟩ := s24DetectUpdate_core s data n'
    have h' : wf (s24DetectUpdate s data n') := wf_of_core h e1 e2 e3 e4 e5
    obtain ⟨hres, _, _, _, _⟩ := writeToRing_spec h' staged
    rw [s24DetectUpdate_free] at hres
    have hfit : 3 * n' ≤ getFreeSpace s := by omega
    have hres' : (writeToRing (s24DetectUpdate s data n') staged).2 = 3 * n' := by
      rw [hres, hlen]
      omega
    have havail := writeToRing_avail h' staged
    rw [s24DetectUpdate_avail, hres'] at havail
    rw [heq]
    simp only
    rw [hres']
    have hr : 3 * n' / 3 * 4 = 4 * n' := by omega
    rw [hr]
    refine ⟨⟨n', by omega⟩, by omega, by omega, ?_⟩
    rw [havail]
    omega
  · have hz : push24BitPacked s data = (s, 0) := by
      unfold push24BitPacked
      rw [if_neg hsz]
      simp only
      by_cases h4 : data.length / 4 = 0
      · rw [if_pos h4]
      · rw [if_neg h4, if_pos (by omega)]
    rw [hz]
    simp

lemma push16_eq (s : RingState) (data : List Nat) (n' : Nat)
    (hsz : s.size ≠ 0)
    (hn' : n' = min (min (data.length / 2) (STAGING_SIZE / 4)) (getFreeSpace s / 4))
    (hpos : 1 ≤ n') :
    push16To32 s data =
      ((writeToRing s (convert16To32_AVX2 data n')).1,
       (writeToRing s (convert16To32_AVX2 data n')).2 / 4 * 2) := by
  subst hn'
  unfold push16To32
  rw [if_neg hsz]
  simp only
  rw [if_neg (by omega), if_neg (by omega)]

lemma push16_c6 {s : RingState} (h : wf s) (data : List Nat) :
    2 ∣ (push16To32 s data).2 ∧
    (push16To32 s data).2 ≤ data.length ∧
    (push16To32 s data).2 / 2 * 4 ≤ getFreeSpace s ∧
    getAvailable (push16To32 s data).1 =
      getAvailable s + (push16To32 s data).2 / 2 * 4 := by
  have hsz : s.size ≠ 0 := by
    have := size_two_le h
    omega
  by_cases hpos : 1 ≤ min (min (data.length / 2) (STAGING_SIZE / 4)) (getFreeSpace s / 4)
  · have heq := push16_eq s data _ hsz rfl hpos
    set n' := min (min (data.length / 2) (STAGING_SIZE / 4)) (getFreeSpace s / 4) with hn'
    obtain ⟨hres, _, _, _, _⟩ := writeToRing_spec h (convert16To32_AVX2 data n')
    have hfit : 4 * n' ≤ getFreeSpace s := by omega
    have hres' : (writeToRing s (convert16To32_AVX2 data n')).2 = 4 * n' := by
      rw [hres, convert16To32_AVX2_length]
      omega
    have havail := writeToRing_avail h (convert16To32_AVX2 data n')
    rw [hres'] at havail
    rw [heq]
    simp only
    rw [hres']
    have hr : 4 * n' / 4 * 2 = 2 * n' := by omega
    rw [hr]
    refine ⟨⟨n', by omega⟩, by omega, by omega, ?_⟩
    rw [havail]
    omega
  · have hz : push16To32 s data = (s, 0) := by
      unfold push16To32
      rw [if_neg hsz]
      simp only
      by_cases h2 : data.length / 2 = 0
      · rw [if_pos h2]
      · rw [if_neg h2, if_pos (by omega)]
    rw [hz]
    simp

lemma dsdScalarGroup_length (src : List Nat) (bpc : Nat) (t : Option (Nat → Nat))
    (swap : Bool) (ch i : Nat) : (dsdScalarGroup src bpc t swap ch i).length = 4 := by
  unfold dsdScalarGroup
  simp only
  split <;> rfl

lemma dsdScalarChans_length (src : List Nat) (bpc : Nat) (t : Option (Nat → Nat))
    (swap : Bool) (i : Nat) :
    ∀ r ch, (dsdScalarChans src bpc t swap i r ch).length = 4 * r := by
  intro r
  induction r with
  | zero => intro ch; rfl
  | succ r ih =>
      intro ch
      rw [dsdScalarChans, List.length_append, dsdScalarGroup_length, ih]
      omega

lemma dsdScalarLoop_length (src : List Nat) (bpc : Nat) (t : Option (Nat → Nat))
    (swap : Bool) (nc : Nat) :
    ∀ fuel i, bpc ≤ i + 4 * fuel →
      (dsdScalarLoop src bpc t swap nc fuel i).length =
        (bpc - i + 3) / 4 * (4 * nc) := by
  intro fuel
  induction fuel with
  | zero =>
      intro i hfit
      rw [show dsdScalarLoop src bpc t swap nc 0 i = [] from rfl, List.length_nil,
        show (bpc - i + 3) / 4 = 0 from by omega]
      ring
  | succ f ih =>
      intro i hfit
      by_cases hc : i < bpc
      · rw [dsdScalarLoop, if_pos hc, List.length_append, dsdScalarChans_length,
          ih (i + 4) (by omega)]
        have hq : (bpc - i + 3) / 4 = (bpc - (i + 4) + 3) / 4 + 1 := by omega
        rw [hq]
        ring
      · rw [dsdScalarLoop, if_neg hc, List.length_nil,
          show (bpc - i + 3) / 4 = 0 from by omega]
        ring

lemma perm_pair_length (a b : List Nat) (ha : a.length = 32) (hb : b.length = 32) :
    (permute2x128_20 a b ++ permute2x128_31 a b).length = 64 := by
  simp [permute2x128_20, permute2x128_31, lane0, lane1, ha, hb]

lemma veclet_lo_length (a b : List Nat) (sw : Bool) :
    (if sw then pshufb (unpacklo_epi32 a b) byteswapMask
     else unpacklo_epi32 a b).length = 32 := by
  cases sw <;> rfl

lemma veclet_hi_length (a b : List Nat) (sw : Bool) :
    (if sw then pshufb (unpackhi_epi32 a b) byteswapMask
     else unpackhi_epi32 a b).length = 32 := by
  cases sw <;> rfl

lemma dsdVec2Tail_length (src : List Nat) (bpc : Nat) (t : Option (Nat → Nat)) :
    ∀ fuel i, bpc ≤ i + 4 * fuel + 3 →
      (dsdVec2Tail src bpc t fuel i).length = (bpc - i) / 4 * 8 := by
  intro fuel
  induction fuel with
  | zero =>
      intro i hfit
      rw [show dsdVec2Tail src bpc t 0 i = [] from rfl, List.length_nil]
      omega
  | succ f ih =>
      intro i hfit
      by_cases hc : i + 4 ≤ bpc
      · rw [dsdVec2Tail, if_pos hc, List.length_append, ih (i + 4) (by omega)]
        simp only [List.length_cons, List.length_nil]
        omega
      · rw [dsdVec2Tail, if_neg hc, List.length_nil]
        omega

lemma dsdVec2Loop_length (src : List Nat) (bpc : Nat) (t : Option (Nat → Nat))
    (swap : Bool) :
    ∀ fuel i, (dsdVec2Loop src bpc t swap fuel i).length = (bpc - i) / 4 * 8 := by
  intro fuel
  induction fuel with
  | zero =>
      intro i
      exact dsdVec2Tail_length src bpc t bpc i (by omega)
  | succ f ih =>
      intro i
      by_cases hc : i + 32 ≤ bpc
      · rw [dsdVec2Loop, if_pos hc]
        simp only
        rw [List.length_append,
          perm_pair_length _ _ (veclet_lo_length _ _ _) (veclet_hi_length _ _ _),
          ih (i + 32)]
        omega
      · rw [dsdVec2Loop, if_neg hc]
        exact dsdVec2Tail_length src bpc t bpc i (by omega)

lemma convertDSDPlanar_AVX2_length (src : List Nat) (total nc : Nat)
    (t : Option (Nat → Nat)) (swap : Bool) (hdvd : 4 ∣ total / nc) :
    (convertDSDPlanar_AVX2 src total nc t swap).length = total / nc * nc := by
  obtain ⟨q, hq⟩ := hdvd
  unfold convertDSDPlanar_AVX2
  split
  · next h2 =>
      subst h2
      rw [dsdVec2Loop_length]
      omega
  · unfold convertDSDPlanar_Scalar
    simp only
    rw [dsdScalarLoop_length _ _ _ _ _ _ 0 (by omega),
      show total / nc - 0 + 3 = 4 * q + 3 from by omega,
      show (4 * q + 3) / 4 = q from by omega, hq]
    ring

lemma pushDSD_eq (s : RingState) (data : List Nat) (nc : Nat)
    (t : Option (Nat → Nat)) (swap : Bool) (u : Nat)
    (hsz : s.size ≠ 0) (hnc : ¬ nc = 0)
    (hu : u = min (min data.length STAGING_SIZE) (getFreeSpace s) / nc / 4 * 4 * nc)
    (hpos : 1 ≤ u) :
    pushDSDPlanar s data nc t swap =
      writeToRing s (convertDSDPlanar_AVX2 data u nc t swap) := by
  subst hu
  unfold pushDSDPlanar
  rw [if_neg hsz, if_neg hnc]
  simp only
  rw [if_neg (by omega)]

lemma pushDSD_c6 {s : RingState} (h : wf s) (data : List Nat) (nc : Nat)
    (t : Option (Nat → Nat)) (swap : Bool) :
    (pushDSDPlanar s data nc t swap).2 ≤ data.length ∧
    (pushDSDPlanar s data nc t swap).2 ≤ getFreeSpace s ∧
    getAvailable (pushDSDPlanar s data nc t swap).1 =
      getAvailable s + (pushDSDPlanar s data nc t swap).2 := by
  have hsz : s.size ≠ 0 := by
    have := size_two_le h
    omega
  by_cases hnc : nc = 0
  · have hz : pushDSDPlanar s data nc t swap = (s, 0) := by
      unfold pushDSDPlanar
      rw [if_neg hsz, if_pos hnc]
    rw [hz]
    simp
  · set mb := min (min data.length STAGING_SIZE) (getFreeSpace s) with hmb
    by_cases hpos : 1 ≤ mb / nc / 4 * 4 * nc
    · set u := mb / nc / 4 * 4 * nc with hu
      have heq := pushDSD_eq s data nc t swap u hsz hnc rfl hpos
      have hdvd : 4 ∣ u / nc := by
        have : u / nc = mb / nc / 4 * 4 := by
          rw [hu, Nat.mul_div_cancel _ (Nat.pos_of_ne_zero hnc)]
        rw [this]
        omega
      have hlen : (convertDSDPlanar_AVX2 data u nc t swap).length = u := by
        rw [convertDSDPlanar_AVX2_length data u nc t swap hdvd,
          Nat.mul_div_cancel _ (Nat.pos_of_ne_zero hnc)]
      have hub : u ≤ mb := by
        calc u = mb / nc / 4 * 4 * nc := hu
          _ ≤ mb / nc * nc := by
              have h1 : mb / nc / 4 * 4 ≤ mb / nc := Nat.div_mul_le_self _ 4
              exact Nat.mul_le_mul_right nc h1
          _ ≤ mb := Nat.div_mul_le_self _ _
      have hufree : u ≤ getFreeSpace s := le_trans hub (min_le_right _ _)
      have hudata : u ≤ data.length :=
        le_trans hub (le_trans (min_le_left _ _) (min_le_left _ _))
      obtain ⟨hres, _, _, _, _⟩ := writeToRing_spec h (convertDSDPlanar_AVX2 data u nc t swap)
      have hres' : (writeToRing s (convertDSDPlanar_AVX2 data u nc t swap)).2 = u := by
        rw [hres, hlen]
        omega
      have havail := writeToRing_avail h (convertDSDPlanar_AVX2 data u nc t swap)
      rw [heq, hres']
      rw [hres'] at havail
      exact ⟨hudata, hufree, havail⟩
    · have hz : pushDSDPlanar s data nc t swap = (s, 0) := by
        unfold pushDSDPlanar
        rw [if_neg hsz, if_neg hnc]
        simp only
        rw [if_pos (by rw [← hmb]; omega)]
      rw [hz]
      simp

/-- Claim C6: every push operation truncates to what fits instead of
failing.  `push` returns exactly `min (input length) (free space)` and
the available count grows by that return; `push24BitPacked` and
`push16To32` return a whole number of samples (a multiple of 4 and of 2
input bytes respectively), never more than the input, the ring bytes
they write (3 per 4, respectively 4 per 2) never exceed the free space
and the available count grows by exactly that amount;
`pushDSDPlanar` likewise returns at most the input length, writes at
most the free space, and grows the available count by its return.
Zero is an ordinary result of all four. -/
theorem c6_truncation_semantics (s : RingState) (h : wf s) (data : List Nat)
    (ch : Nat) (t : Option (Nat → Nat)) (swap : Bool) :
    ((push s data).2 = min data.length (getFreeSpace s) ∧
      getAvailable (push s data).1 = getAvailable s + (push s data).2) ∧
    (4 ∣ (push24BitPacked s data).2 ∧
      (push24BitPacked s data).2 ≤ data.length ∧
      (push24BitPacked s data).2 / 4 * 3 ≤ getFreeSpace s ∧
      getAvailable (push24BitPacked s data).1 =
        getAvailable s + (push24BitPacked s data).2 / 4 * 3) ∧
    (2 ∣ (push16To32 s data).2 ∧
      (push16To32 s data).2 ≤ data.length ∧
      (push16To32 s data).2 / 2 * 4 ≤ getFreeSpace s ∧
      getAvailable (push16To32 s data).1 =
        getAvailable s + (push16To32 s data).2 / 2 * 4) ∧
    ((pushDSDPlanar s data ch t swap).2 ≤ data.length ∧
      (pushDSDPlanar s data ch t swap).2 ≤ getFreeSpace s ∧
      getAvailable (pushDSDPlanar s data ch t swap).1 =
        getAvailable s + (pushDSDPlanar s data ch t swap).2) :=
  ⟨⟨push_result h data, push_avail h data⟩, push24_c6 h data, push16_c6 h data,
    pushDSD_c6 h data ch t swap⟩

theorem c6_truncation_semantics_witness :
    wf (resize initState 1024 0) ∧
    (((push (resize initState 1024 0) [5, 6, 7]).2 =
        min ([5, 6, 7] : List Nat).length (getFreeSpace (resize initState 1024 0)) ∧
      getAvailable (push (resize initState 1024 0) [5, 6, 7]).1 =
        getAvailable (resize initState 1024 0) +
          (push (resize initState 1024 0) [5, 6, 7]).2) ∧
    (4 ∣ (push24BitPacked (resize initState 1024 0) [5, 6, 7]).2 ∧
      (push24BitPacked (resize initState 1024 0) [5, 6, 7]).2 ≤
        ([5, 6, 7] : List Nat).length ∧
      (push24BitPacked (resize initState 1024 0) [5, 6, 7]).2 / 4 * 3 ≤
        getFreeSpace (resize initState 1024 0) ∧
      getAvailable (push24BitPacked (resize initState 1024 0) [5, 6, 7]).1 =
        getAvailable (resize initState 1024 0) +
          (push24BitPacked (resize initState 1024 0) [5, 6, 7]).2 / 4 * 3) ∧
    (2 ∣ (push16To32 (resize initState 1024 0) [5, 6, 7]).2 ∧
      (push16To32 (resize initState 1024 0) [5, 6, 7]).2 ≤
        ([5, 6, 7] : List Nat).length ∧
      (push16To32 (resize initState 1024 0) [5, 6, 7]).2 / 2 * 4 ≤
        getFreeSpace (resize initState 1024 0) ∧
      getAvailable (push16To32 (resize initState 1024 0) [5, 6, 7]).1 =
        getAvailable (resize initState 1024 0) +
          (push16To32 (resize initState 1024 0) [5, 6, 7]).2 / 2 * 4) ∧
    ((pushDSDPlanar (resize initState 1024 0) [5, 6, 7] 2 none false).2 ≤
        ([5, 6, 7] : List Nat).length ∧
      (pushDSDPlanar (resize initState 1024 0) [5, 6, 7] 2 none false).2 ≤
        getFreeSpace (resize initState 1024 0) ∧
      getAvailable (pushDSDPlanar (resize initState 1024 0) [5, 6, 7] 2 none false).1 =
        getAvailable (resize initState 1024 0) +
          (pushDSDPlanar (resize initState 1024 0) [5, 6, 7] 2 none false).2)) :=
  ⟨wf_resize 1024 0 (by norm_num),
    c6_truncation_semantics (resize initState 1024 0) (wf_resize 1024 0 (by norm_num))
      [5, 6, 7] 2 none false⟩

end Diretta
namespace Diretta

/-! ### Byte bit reversal: pointwise semantics of simd_bit_reverse (claim C7) -/

/-- Reversing the bit order of one byte with the nibble lookup table:
the reversed low nibble becomes the high nibble and vice versa. -/
def rb8 (x : Nat) : Nat :=
  byte [0, 8, 4, 12, 2, 10, 6, 14, 1, 9, 5, 13, 3, 11, 7, 15] (x % 16) * 16 |||
    byte [0, 8, 4, 12, 2, 10, 6, 14, 1, 9, 5, 13, 3, 11, 7, 15] (x / 16)

lemma nibTab_lt (m : Nat) : byte [0, 8, 4, 12, 2, 10, 6, 14, 1, 9, 5, 13, 3, 11, 7, 15] m < 16 := by
  rcases Nat.lt_or_ge m 16 with h | h
  · interval_cases m <;> decide
  · rw [byte, List.getD_eq_default _ _ (by simpa using h)]
    norm_num

lemma and15 (x : Nat) : x &&& 15 = x % 16 := by
  rw [show (15 : Nat) = 2 ^ 4 - 1 from rfl, Nat.and_pow_two_sub_one_eq_mod]

lemma bitrev_lo (a b : Nat) (ha : a < 256) (hb : b < 256) :
    ((if 128 ≤ a &&& 15 then 0
      else byte [0, 8, 4, 12, 2, 10, 6, 14, 1, 9, 5, 13, 3, 11, 7, 15] ((a &&& 15) % 16)) +
     256 *
       if 128 ≤ b &&& 15 then 0
       else byte [0, 8, 4, 12, 2, 10, 6, 14, 1, 9, 5, 13, 3, 11, 7, 15] ((b &&& 15) % 16)) *
      2 ^ 4 % 65536 % 256 |||
    (if 128 ≤ (a + 256 * b) / 2 ^ 4 % 256 &&& 15 then 0
     else byte [0, 8, 4, 12, 2, 10, 6, 14, 1, 9, 5, 13, 3, 11, 7, 15]
       (((a + 256 * b) / 2 ^ 4 % 256 &&& 15) % 16)) = rb8 a := by
  simp only [and15, show (2 : Nat) ^ 4 = 16 from rfl]
  rw [if_neg (by omega), if_neg (by omega), if_neg (by omega)]
  rw [show a % 16 % 16 = a % 16 from by omega,
    show b % 16 % 16 = b % 16 from by omega,
    show (a + 256 * b) / 16 % 256 % 16 % 16 = a / 16 from by omega]
  unfold rb8
  have hA := nibTab_lt (a % 16)
  have hB := nibTab_lt (b % 16)
  congr 1 <;> omega

lemma bitrev_hi (a b : Nat) (ha : a < 256) (hb : b < 256) :
    ((if 128 ≤ a &&& 15 then 0
      else byte [0, 8, 4, 12, 2, 10, 6, 14, 1, 9, 5, 13, 3, 11, 7, 15] ((a &&& 15) % 16)) +
     256 *
       if 128 ≤ b &&& 15 then 0
       else byte [0, 8, 4, 12, 2, 10, 6, 14, 1, 9, 5, 13, 3, 11, 7, 15] ((b &&& 15) % 16)) *
      2 ^ 4 % 65536 / 256 % 256 |||
    (if 128 ≤ (a + 256 * b) / 2 ^ 4 / 256 % 256 &&& 15 then 0
     else byte [0, 8, 4, 12, 2, 10, 6, 14, 1, 9, 5, 13, 3, 11, 7, 15]
       (((a + 256 * b) / 2 ^ 4 / 256 % 256 &&& 15) % 16)) = rb8 b := by
  simp only [and15, show (2 : Nat) ^ 4 = 16 from rfl]
  rw [if_neg (by omega), if_neg (by omega), if_neg (by omega)]
  rw [show a % 16 % 16 = a % 16 from by omega,
    show b % 16 % 16 = b % 16 from by omega,
    show (a + 256 * b) / 16 / 256 % 256 % 16 % 16 = b / 16 from by omega]
  unfold rb8
  have hA := nibTab_lt (a % 16)
  have hB := nibTab_lt (b % 16)
  congr 1 <;> omega

lemma byte_lt_256 {src : List Nat} (hsrc : ∀ x ∈ src, x < 256) (i : Nat) :
    byte src i < 256 := by
  unfold byte
  rcases Nat.lt_or_ge i src.length with h | h
  · rw [List.getD_eq_getElem?_getD, List.getElem?_eq_getElem h]
    exact hsrc _ (List.getElem_mem h)
  · rw [List.getD_eq_default _ _ h]
    norm_num


set_option maxHeartbeats 2000000 in
lemma simd_bit_reverse32 (b0 b1 b2 b3 b4 b5 b6 b7 b8 b9 b10 b11 b12 b13 b14 b15 b16 b17 b18 b19 b20 b21 b22 b23 b24 b25 b26 b27 b28 b29 b30 b31 : Nat)
    (h0 : b0 < 256) (h1 : b1 < 256) (h2 : b2 < 256) (h3 : b3 < 256) (h4 : b4 < 256) (h5 : b5 < 256) (h6 : b6 < 256) (h7 : b7 < 256) (h8 : b8 < 256) (h9 : b9 < 256) (h10 : b10 < 256) (h11 : b11 < 256) (h12 : b12 < 256) (h13 : b13 < 256) (h14 : b14 < 256) (h15 : b15 < 256) (h16 : b16 < 256) (h17 : b17 < 256) (h18 : b18 < 256) (h19 : b19 < 256) (h20 : b20 < 256) (h21 : b21 < 256) (h22 : b22 < 256) (h23 : b23 < 256) (h24 : b24 < 256) (h25 : b25 < 256) (h26 : b26 < 256) (h27 : b27 < 256) (h28 : b28 < 256) (h29 : b29 < 256) (h30 : b30 < 256) (h31 : b31 < 256) :
    simd_bit_reverse [b0, b1, b2, b3, b4, b5, b6, b7, b8, b9, b10, b11, b12, b13, b14, b15, b16, b17, b18, b19, b20, b21, b22, b23, b24, b25, b26, b27, b28, b29, b30, b31] =
      [rb8 b0, rb8 b1, rb8 b2, rb8 b3, rb8 b4, rb8 b5, rb8 b6, rb8 b7, rb8 b8, rb8 b9, rb8 b10, rb8 b11, rb8 b12, rb8 b13, rb8 b14, rb8 b15, rb8 b16, rb8 b17, rb8 b18, rb8 b19, rb8 b20, rb8 b21, rb8 b22, rb8 b23, rb8 b24, rb8 b25, rb8 b26, rb8 b27, rb8 b28, rb8 b29, rb8 b30, rb8 b31] := by
  simp only [simd_bit_reverse, set1_epi8, and256, srli_epi16, slli_epi16, map16,
    toWords16, ofWords16, pshufb, pshufbLane, lane0, lane1, or256,
    List.zipWith, List.map, List.take, List.drop, List.replicate]
  rw [bitrev_lo b0 b1 h0 h1, bitrev_hi b0 b1 h0 h1, bitrev_lo b2 b3 h2 h3, bitrev_hi b2 b3 h2 h3, bitrev_lo b4 b5 h4 h5, bitrev_hi b4 b5 h4 h5, bitrev_lo b6 b7 h6 h7, bitrev_hi b6 b7 h6 h7, bitrev_lo b8 b9 h8 h9, bitrev_hi b8 b9 h8 h9, bitrev_lo b10 b11 h10 h11, bitrev_hi b10 b11 h10 h11, bitrev_lo b12 b13 h12 h13, bitrev_hi b12 b13 h12 h13, bitrev_lo b14 b15 h14 h15, bitrev_hi b14 b15 h14 h15, bitrev_lo b16 b17 h16 h17, bitrev_hi b16 b17 h16 h17, bitrev_lo b18 b19 h18 h19, bitrev_hi b18 b19 h18 h19, bitrev_lo b20 b21 h20 h21, bitrev_hi b20 b21 h20 h21, bitrev_lo b22 b23 h22 h23, bitrev_hi b22 b23 h22 h23, bitrev_lo b24 b25 h24 h25, bitrev_hi b24 b25 h24 h25, bitrev_lo b26 b27 h26 h27, bitrev_hi b26 b27 h26 h27, bitrev_lo b28 b29 h28 h29, bitrev_hi b28 b29 h28 h29, bitrev_lo b30 b31 h30 h31, bitrev_hi b30 b31 h30 h31]


lemma simd_bit_reverse_loadu (src : List Nat) (hsrc : ∀ x ∈ src, x < 256) (off : Nat) :
    simd_bit_reverse (loadu256 src off) = (loadu256 src off).map rb8 := by
  unfold loadu256
  rw [simd_bit_reverse32 (byte src off) (byte src (off + 1)) (byte src (off + 2)) (byte src (off + 3)) (byte src (off + 4)) (byte src (off + 5)) (byte src (off + 6)) (byte src (off + 7)) (byte src (off + 8)) (byte src (off + 9)) (byte src (off + 10)) (byte src (off + 11)) (byte src (off + 12)) (byte src (off + 13)) (byte src (off + 14)) (byte src (off + 15)) (byte src (off + 16)) (byte src (off + 17)) (byte src (off + 18)) (byte src (off + 19)) (byte src (off + 20)) (byte src (off + 21)) (byte src (off + 22)) (byte src (off + 23)) (byte src (off + 24)) (byte src (off + 25)) (byte src (off + 26)) (byte src (off + 27)) (byte src (off + 28)) (byte src (off + 29)) (byte src (off + 30)) (byte src (off + 31))
    (byte_lt_256 hsrc _) (byte_lt_256 hsrc _) (byte_lt_256 hsrc _) (byte_lt_256 hsrc _) (byte_lt_256 hsrc _) (byte_lt_256 hsrc _) (byte_lt_256 hsrc _) (byte_lt_256 hsrc _) (byte_lt_256 hsrc _) (byte_lt_256 hsrc _) (byte_lt_256 hsrc _) (byte_lt_256 hsrc _) (byte_lt_256 hsrc _) (byte_lt_256 hsrc _) (byte_lt_256 hsrc _) (byte_lt_256 hsrc _) (byte_lt_256 hsrc _) (byte_lt_256 hsrc _) (byte_lt_256 hsrc _) (byte_lt_256 hsrc _) (byte_lt_256 hsrc _) (byte_lt_256 hsrc _) (byte_lt_256 hsrc _) (byte_lt_256 hsrc _) (byte_lt_256 hsrc _) (byte_lt_256 hsrc _) (byte_lt_256 hsrc _) (byte_lt_256 hsrc _) (byte_lt_256 hsrc _) (byte_lt_256 hsrc _) (byte_lt_256 hsrc _) (byte_lt_256 hsrc _)]
  rfl

end Diretta
namespace Diretta

/-! ### Equivalence of the two-channel AVX2 DSD path with the scalar path -/

lemma dsdInterleave32 (a0 a1 a2 a3 a4 a5 a6 a7 a8 a9 a10 a11 a12 a13 a14 a15 a16 a17 a18 a19 a20 a21 a22 a23 a24 a25 a26 a27 a28 a29 a30 a31 b0 b1 b2 b3 b4 b5 b6 b7 b8 b9 b10 b11 b12 b13 b14 b15 b16 b17 b18 b19 b20 b21 b22 b23 b24 b25 b26 b27 b28 b29 b30 b31 : Nat) :
    permute2x128_20 (unpacklo_epi32 [a0, a1, a2, a3, a4, a5, a6, a7, a8, a9, a10, a11, a12, a13, a14, a15, a16, a17, a18, a19, a20, a21, a22, a23, a24, a25, a26, a27, a28, a29, a30, a31] [b0, b1, b2, b3, b4, b5, b6, b7, b8, b9, b10, b11, b12, b13, b14, b15, b16, b17, b18, b19, b20, b21, b22, b23, b24, b25, b26, b27, b28, b29, b30, b31])
        (unpackhi_epi32 [a0, a1, a2, a3, a4, a5, a6, a7, a8, a9, a10, a11, a12, a13, a14, a15, a16, a17, a18, a19, a20, a21, a22, a23, a24, a25, a26, a27, a28, a29, a30, a31] [b0, b1, b2, b3, b4, b5, b6, b7, b8, b9, b10, b11, b12, b13, b14, b15, b16, b17, b18, b19, b20, b21, b22, b23, b24, b25, b26, b27, b28, b29, b30, b31]) ++
      permute2x128_31 (unpacklo_epi32 [a0, a1, a2, a3, a4, a5, a6, a7, a8, a9, a10, a11, a12, a13, a14, a15, a16, a17, a18, a19, a20, a21, a22, a23, a24, a25, a26, a27, a28, a29, a30, a31] [b0, b1, b2, b3, b4, b5, b6, b7, b8, b9, b10, b11, b12, b13, b14, b15, b16, b17, b18, b19, b20, b21, b22, b23, b24, b25, b26, b27, b28, b29, b30, b31])
        (unpackhi_epi32 [a0, a1, a2, a3, a4, a5, a6, a7, a8, a9, a10, a11, a12, a13, a14, a15, a16, a17, a18, a19, a20, a21, a22, a23, a24, a25, a26, a27, a28, a29, a30, a31] [b0, b1, b2, b3, b4, b5, b6, b7, b8, b9, b10, b11, b12, b13, b14, b15, b16, b17, b18, b19, b20, b21, b22, b23, b24, b25, b26, b27, b28, b29, b30, b31]) =
      [a0, a1, a2, a3, b0, b1, b2, b3,
       a4, a5, a6, a7, b4, b5, b6, b7,
       a8, a9, a10, a11, b8, b9, b10, b11,
       a12, a13, a14, a15, b12, b13, b14, b15,
       a16, a17, a18, a19, b16, b17, b18, b19,
       a20, a21, a22, a23, b20, b21, b22, b23,
       a24, a25, a26, a27, b24, b25, b26, b27,
       a28, a29, a30, a31, b28, b29, b30, b31] := by
  rfl

lemma dsdInterleave32_swap (a0 a1 a2 a3 a4 a5 a6 a7 a8 a9 a10 a11 a12 a13 a14 a15 a16 a17 a18 a19 a20 a21 a22 a23 a24 a25 a26 a27 a28 a29 a30 a31 b0 b1 b2 b3 b4 b5 b6 b7 b8 b9 b10 b11 b12 b13 b14 b15 b16 b17 b18 b19 b20 b21 b22 b23 b24 b25 b26 b27 b28 b29 b30 b31 : Nat) :
    permute2x128_20 (pshufb (unpacklo_epi32 [a0, a1, a2, a3, a4, a5, a6, a7, a8, a9, a10, a11, a12, a13, a14, a15, a16, a17, a18, a19, a20, a21, a22, a23, a24, a25, a26, a27, a28, a29, a30, a31] [b0, b1, b2, b3, b4, b5, b6, b7, b8, b9, b10, b11, b12, b13, b14, b15, b16, b17, b18, b19, b20, b21, b22, b23, b24, b25, b26, b27, b28, b29, b30, b31]) byteswapMask)
        (pshufb (unpackhi_epi32 [a0, a1, a2, a3, a4, a5, a6, a7, a8, a9, a10, a11, a12, a13, a14, a15, a16, a17, a18, a19, a20, a21, a22, a23, a24, a25, a26, a27, a28, a29, a30, a31] [b0, b1, b2, b3, b4, b5, b6, b7, b8, b9, b10, b11, b12, b13, b14, b15, b16, b17, b18, b19, b20, b21, b22, b23, b24, b25, b26, b27, b28, b29, b30, b31]) byteswapMask) ++
      permute2x128_31 (pshufb (unpacklo_epi32 [a0, a1, a2, a3, a4, a5, a6, a7, a8, a9, a10, a11, a12, a13, a14, a15, a16, a17, a18, a19, a20, a21, a22, a23, a24, a25, a26, a27, a28, a29, a30, a31] [b0, b1, b2, b3, b4, b5, b6, b7, b8, b9, b10, b11, b12, b13, b14, b15, b16, b17, b18, b19, b20, b21, b22, b23, b24, b25, b26, b27, b28, b29, b30, b31]) byteswapMask)
        (pshufb (unpackhi_epi32 [a0, a1, a2, a3, a4, a5, a6, a7, a8, a9, a10, a11, a12, a13, a14, a15, a16, a17, a18, a19, a20, a21, a22, a23, a24, a25, a26, a27, a28, a29, a30, a31] [b0, b1, b2, b3, b4, b5, b6, b7, b8, b9, b10, b11, b12, b13, b14, b15, b16, b17, b18, b19, b20, b21, b22, b23, b24, b25, b26, b27, b28, b29, b30, b31]) byteswapMask) =
      [a3, a2, a1, a0, b3, b2, b1, b0,
       a7, a6, a5, a4, b7, b6, b5, b4,
       a11, a10, a9, a8, b11, b10, b9, b8,
       a15, a14, a13, a12, b15, b14, b13, b12,
       a19, a18, a17, a16, b19, b18, b17, b16,
       a23, a22, a21, a20, b23, b22, b21, b20,
       a27, a26, a25, a24, b27, b26, b25, b24,
       a31, a30, a29, a28, b31, b30, b29, b28] := by
  rfl

lemma dsdScalarChans2_noswap (src : List Nat) (bpc : Nat) (t : Option (Nat → Nat))
    (i : Nat) (h : i + 4 ≤ bpc) :
    dsdScalarChans src bpc t false i 2 0 =
      [applyTable t (byte src i),
       applyTable t (byte src (i + 1)),
       applyTable t (byte src (i + 2)),
       applyTable t (byte src (i + 3)),
       applyTable t (byte src (bpc + i)),
       applyTable t (byte src (bpc + i + 1)),
       applyTable t (byte src (bpc + i + 2)),
       applyTable t (byte src (bpc + i + 3))] := by
  rw [show dsdScalarChans src bpc t false i 2 0 =
      dsdScalarGroup src bpc t false 0 i ++ (dsdScalarGroup src bpc t false 1 i ++ []) from rfl]
  simp only [dsdScalarGroup, List.append_nil, zero_mul, zero_add, one_mul, add_zero,
    eq_self_iff_true, Bool.false_eq_true, if_true, if_false]
  rw [if_pos (show i < bpc from by omega), if_pos (show i + 1 < bpc from by omega), if_pos (show i + 2 < bpc from by omega), if_pos (show i + 3 < bpc from by omega), if_pos (show i < bpc from by omega), if_pos (show i + 1 < bpc from by omega), if_pos (show i + 2 < bpc from by omega), if_pos (show i + 3 < bpc from by omega)]
  simp only [List.cons_append, List.nil_append]

lemma dsdScalarChans2_swap (src : List Nat) (bpc : Nat) (t : Option (Nat → Nat))
    (i : Nat) (h : i + 4 ≤ bpc) :
    dsdScalarChans src bpc t true i 2 0 =
      [applyTable t (byte src (i + 3)),
       applyTable t (byte src (i + 2)),
       applyTable t (byte src (i + 1)),
       applyTable t (byte src i),
       applyTable t (byte src (bpc + i + 3)),
       applyTable t (byte src (bpc + i + 2)),
       applyTable t (byte src (bpc + i + 1)),
       applyTable t (byte src (bpc + i))] := by
  rw [show dsdScalarChans src bpc t true i 2 0 =
      dsdScalarGroup src bpc t true 0 i ++ (dsdScalarGroup src bpc t true 1 i ++ []) from rfl]
  simp only [dsdScalarGroup, List.append_nil, zero_mul, zero_add, one_mul, add_zero,
    eq_self_iff_true, Bool.false_eq_true, if_true, if_false]
  rw [if_pos (show i < bpc from by omega), if_pos (show i + 1 < bpc from by omega), if_pos (show i + 2 < bpc from by omega), if_pos (show i + 3 < bpc from by omega), if_pos (show i < bpc from by omega), if_pos (show i + 1 < bpc from by omega), if_pos (show i + 2 < bpc from by omega), if_pos (show i + 3 < bpc from by omega)]
  simp only [List.cons_append, List.nil_append]

lemma dsdVec2Tail_stop (src : List Nat) (bpc : Nat) (t : Option (Nat → Nat)) (i : Nat)
    (h : ¬ i + 4 ≤ bpc) : ∀ fuel, dsdVec2Tail src bpc t fuel i = [] := by
  intro fuel
  cases fuel with
  | zero => rfl
  | succ f => rw [dsdVec2Tail, if_neg h]

lemma dsdScalarLoop_stop (src : List Nat) (bpc : Nat) (t : Option (Nat → Nat))
    (swap : Bool) (nc : Nat) (i : Nat) (h : ¬ i < bpc) :
    ∀ fuel, dsdScalarLoop src bpc t swap nc fuel i = [] := by
  intro fuel
  cases fuel with
  | zero => rfl
  | succ f => rw [dsdScalarLoop, if_neg h]

lemma dsdVec2Tail_fuel (src : List Nat) (bpc : Nat) (t : Option (Nat → Nat)) :
    ∀ f1 f2 i, bpc ≤ i + 4 * f1 + 3 → bpc ≤ i + 4 * f2 + 3 →
      dsdVec2Tail src bpc t f1 i = dsdVec2Tail src bpc t f2 i := by
  intro f1
  induction f1 with
  | zero =>
      intro f2 i h1 h2
      exact (dsdVec2Tail_stop src bpc t i (by omega) f2).symm
  | succ f ih =>
      intro f2 i h1 h2
      by_cases hc : i + 4 ≤ bpc
      · cases f2 with
        | zero => exact absurd hc (by omega)
        | succ f2' =>
            rw [dsdVec2Tail, if_pos hc, dsdVec2Tail, if_pos hc,
              ih f2' (i + 4) (by omega) (by omega)]
      · rw [dsdVec2Tail_stop src bpc t i hc, dsdVec2Tail_stop src bpc t i hc]

lemma dsdScalarLoop_fuel (src : List Nat) (bpc : Nat) (t : Option (Nat → Nat))
    (swap : Bool) (nc : Nat) :
    ∀ f1 f2 i, bpc ≤ i + 4 * f1 → bpc ≤ i + 4 * f2 →
      dsdScalarLoop src bpc t swap nc f1 i = dsdScalarLoop src bpc t swap nc f2 i := by
  intro f1
  induction f1 with
  | zero =>
      intro f2 i h1 h2
      exact (dsdScalarLoop_stop src bpc t swap nc i (by omega) f2).symm
  | succ f ih =>
      intro f2 i h1 h2
      by_cases hc : i < bpc
      · cases f2 with
        | zero => exact absurd hc (by omega)
        | succ f2' =>
            rw [dsdScalarLoop, if_pos hc, dsdScalarLoop, if_pos hc,
              ih f2' (i + 4) (by omega) (by omega)]
      · rw [dsdScalarLoop_stop src bpc t swap nc i hc,
          dsdScalarLoop_stop src bpc t swap nc i hc]

lemma dsdVec2Tail_eq_scalar (src : List Nat) (bpc : Nat) (t : Option (Nat → Nat))
    (hbpc : 4 ∣ bpc) :
    ∀ fuel i, 4 ∣ i → bpc ≤ i + 4 * fuel →
      dsdVec2Tail src bpc t fuel i = dsdScalarLoop src bpc t false 2 fuel i := by
  intro fuel
  induction fuel with
  | zero => intro i _ _; rfl
  | succ f ih =>
      intro i hi hfit
      by_cases hc : i + 4 ≤ bpc
      · rw [dsdVec2Tail, if_pos hc, dsdScalarLoop, if_pos (by omega),
          dsdScalarChans2_noswap src bpc t i hc, ih (i + 4) (by omega) (by omega)]
      · rw [dsdVec2Tail_stop src bpc t i hc,
          dsdScalarLoop_stop src bpc t false 2 i (by omega)]

lemma dsdBody_eq (src : List Nat) (bpc : Nat) (t : Option (Nat → Nat)) (swap : Bool)
    (i : Nat) (hc : i + 32 ≤ bpc) (hsrc : ∀ x ∈ src, x < 256)
    (ht : ∀ f, t = some f → ∀ b, b < 256 → f b = rb8 b) :
    (let left := loadu256 src i
     let right := loadu256 src (bpc + i)
     let left := if t.isSome then simd_bit_reverse left else left
     let right := if t.isSome then simd_bit_reverse right else right
     let ilo := unpacklo_epi32 left right
     let ihi := unpackhi_epi32 left right
     let ilo := if swap then pshufb ilo byteswapMask else ilo
     let ihi := if swap then pshufb ihi byteswapMask else ihi
     permute2x128_20 ilo ihi ++ permute2x128_31 ilo ihi) =
      dsdScalarChans src bpc t swap i 2 0 ++
        (dsdScalarChans src bpc t swap (i + 4) 2 0 ++
        (dsdScalarChans src bpc t swap (i + 4 + 4) 2 0 ++
        (dsdScalarChans src bpc t swap (i + 4 + 4 + 4) 2 0 ++
        (dsdScalarChans src bpc t swap (i + 4 + 4 + 4 + 4) 2 0 ++
        (dsdScalarChans src bpc t swap (i + 4 + 4 + 4 + 4 + 4) 2 0 ++
        (dsdScalarChans src bpc t swap (i + 4 + 4 + 4 + 4 + 4 + 4) 2 0 ++
        (dsdScalarChans src bpc t swap (i + 4 + 4 + 4 + 4 + 4 + 4 + 4) 2 0))))))) := by
  have hbyte : ∀ j, byte src j < 256 := byte_lt_256 hsrc
  cases t with
  | none =>
      cases swap with
      | false =>
          simp only [Option.isSome_none, Option.isSome_some, eq_self_iff_true,
            Bool.false_eq_true, if_true, if_false]
          rw [dsdScalarChans2_noswap src bpc _ i (by omega),
    dsdScalarChans2_noswap src bpc _ (i + 4) (by omega),
    dsdScalarChans2_noswap src bpc _ (i + 4 + 4) (by omega),
    dsdScalarChans2_noswap src bpc _ (i + 4 + 4 + 4) (by omega),
    dsdScalarChans2_noswap src bpc _ (i + 4 + 4 + 4 + 4) (by omega),
    dsdScalarChans2_noswap src bpc _ (i + 4 + 4 + 4 + 4 + 4) (by omega),
    dsdScalarChans2_noswap src bpc _ (i + 4 + 4 + 4 + 4 + 4 + 4) (by omega),
    dsdScalarChans2_noswap src bpc _ (i + 4 + 4 + 4 + 4 + 4 + 4 + 4) (by omega)]
          simp only [applyTable, loadu256]
          rw [dsdInterleave32]
          simp only [List.cons_append, List.nil_append]
          ring_nf
      | true =>
          simp only [Option.isSome_none, Option.isSome_some, eq_self_iff_true,
            Bool.false_eq_true, if_true, if_false]
          rw [dsdScalarChans2_swap src bpc _ i (by omega),
    dsdScalarChans2_swap src bpc _ (i + 4) (by omega),
    dsdScalarChans2_swap src bpc _ (i + 4 + 4) (by omega),
    dsdScalarChans2_swap src bpc _ (i + 4 + 4 + 4) (by omega),
    dsdScalarChans2_swap src bpc _ (i + 4 + 4 + 4 + 4) (by omega),
    dsdScalarChans2_swap src bpc _ (i + 4 + 4 + 4 + 4 + 4) (by omega),
    dsdScalarChans2_swap src bpc _ (i + 4 + 4 + 4 + 4 + 4 + 4) (by omega),
    dsdScalarChans2_swap src bpc _ (i + 4 + 4 + 4 + 4 + 4 + 4 + 4) (by omega)]
          simp only [applyTable, loadu256]
          rw [dsdInterleave32_swap]
          simp only [List.cons_append, List.nil_append]
          ring_nf
  | some f =>
      have hf : ∀ b, b < 256 → f b = rb8 b := ht f rfl
      cases swap with
      | false =>
          simp only [Option.isSome_none, Option.isSome_some, eq_self_iff_true,
            Bool.false_eq_true, if_true, if_false]
          rw [simd_bit_reverse_loadu src hsrc i, simd_bit_reverse_loadu src hsrc (bpc + i)]
          rw [dsdScalarChans2_noswap src bpc _ i (by omega),
    dsdScalarChans2_noswap src bpc _ (i + 4) (by omega),
    dsdScalarChans2_noswap src bpc _ (i + 4 + 4) (by omega),
    dsdScalarChans2_noswap src bpc _ (i + 4 + 4 + 4) (by omega),
    dsdScalarChans2_noswap src bpc _ (i + 4 + 4 + 4 + 4) (by omega),
    dsdScalarChans2_noswap src bpc _ (i + 4 + 4 + 4 + 4 + 4) (by omega),
    dsdScalarChans2_noswap src bpc _ (i + 4 + 4 + 4 + 4 + 4 + 4) (by omega),
    dsdScalarChans2_noswap src bpc _ (i + 4 + 4 + 4 + 4 + 4 + 4 + 4) (by omega)]
          simp only [applyTable, hf, hbyte, loadu256, List.map_cons, List.map_nil]
          rw [dsdInterleave32]
          simp only [List.cons_append, List.nil_append]
          ring_nf
      | true =>
          simp only [Option.isSome_none, Option.isSome_some, eq_self_iff_true,
            Bool.false_eq_true, if_true, if_false]
          rw [simd_bit_reverse_loadu src hsrc i, simd_bit_reverse_loadu src hsrc (bpc + i)]
          rw [dsdScalarChans2_swap src bpc _ i (by omega),
    dsdScalarChans2_swap src bpc _ (i + 4) (by omega),
    dsdScalarChans2_swap src bpc _ (i + 4 + 4) (by omega),
    dsdScalarChans2_swap src bpc _ (i + 4 + 4 + 4) (by omega),
    dsdScalarChans2_swap src bpc _ (i + 4 + 4 + 4 + 4) (by omega),
    dsdScalarChans2_swap src bpc _ (i + 4 + 4 + 4 + 4 + 4) (by omega),
    dsdScalarChans2_swap src bpc _ (i + 4 + 4 + 4 + 4 + 4 + 4) (by omega),
    dsdScalarChans2_swap src bpc _ (i + 4 + 4 + 4 + 4 + 4 + 4 + 4) (by omega)]
          simp only [applyTable, hf, hbyte, loadu256, List.map_cons, List.map_nil]
          rw [dsdInterleave32_swap]
          simp only [List.cons_append, List.nil_append]
          ring_nf

lemma dsdVec2Loop_eq_scalar (src : List Nat) (bpc : Nat) (t : Option (Nat → Nat))
    (swap : Bool) (hbpc : 4 ∣ bpc) (hsrc : ∀ x ∈ src, x < 256)
    (ht : ∀ f, t = some f → ∀ b, b < 256 → f b = rb8 b)
    (hswap : swap = false ∨ 32 ∣ bpc) :
    ∀ fuel i, 4 ∣ i → (swap = true → 32 ∣ i) → bpc ≤ i + 32 * fuel →
      dsdVec2Loop src bpc t swap fuel i =
        dsdScalarLoop src bpc t swap 2 (8 * fuel) i := by
  have hstep : ∀ (g j : Nat), j < bpc →
      dsdScalarLoop src bpc t swap 2 (g + 1) j =
        dsdScalarChans src bpc t swap j 2 0 ++
          dsdScalarLoop src bpc t swap 2 g (j + 4) := by
    intro g j hj
    rw [dsdScalarLoop, if_pos hj]
  intro fuel
  induction fuel with
  | zero =>
      intro i hi hi32 hfit
      rw [show dsdVec2Loop src bpc t swap 0 i = dsdVec2Tail src bpc t bpc i from rfl,
        dsdVec2Tail_stop src bpc t i (by omega)]
      rfl
  | succ f ih =>
      intro i hi hi32 hfit
      by_cases hc : i + 32 ≤ bpc
      · rw [dsdVec2Loop, if_pos hc, ih (i + 32) (by omega)
          (fun hs => by have := hi32 hs; omega) (by omega)]
        rw [show 8 * (f + 1) = 8 * f + 1 + 1 + 1 + 1 + 1 + 1 + 1 + 1 from by ring]
        rw [hstep _ _ (by omega)]
        rw [hstep _ _ (by omega)]
        rw [hstep _ _ (by omega)]
        rw [hstep _ _ (by omega)]
        rw [hstep _ _ (by omega)]
        rw [hstep _ _ (by omega)]
        rw [hstep _ _ (by omega)]
        rw [hstep _ _ (by omega)]
        rw [show i + 4 + 4 + 4 + 4 + 4 + 4 + 4 + 4 = i + 32 from by ring]
        rw [dsdBody_eq src bpc t swap i hc hsrc ht]
        simp only [List.append_assoc]
      · rw [dsdVec2Loop, if_neg hc]
        cases swap with
        | false =>
            rw [dsdVec2Tail_fuel src bpc t bpc (8 * (f + 1)) i (by omega) (by omega),
              dsdVec2Tail_eq_scalar src bpc t hbpc (8 * (f + 1)) i hi (by omega)]
        | true =>
            have h32i := hi32 rfl
            rcases hswap with h | h32
            · exact absurd h (by simp)
            · rw [dsdVec2Tail_stop src bpc t i (by omega),
                dsdScalarLoop_stop src bpc t true 2 i (by omega)]

set_option maxRecDepth 100000 in
/-- Claim C7 (corrected).  With two channels and a per-channel byte count
that is a multiple of 4, `convertDSDPlanar_AVX2` matches
`convertDSDPlanar_Scalar` byte for byte whenever the byte-swap flag is
off (for any bit-reversal table that reverses bytes, and for no table),
and also with byte-swap on when the per-channel count is a multiple of
32 so that the scalar tail of the vector path (which, unlike the scalar
converter, does not swap) never runs; the 64-byte 0xAA/0x55 stereo
blocks interleave to repeating groups AA AA AA AA 55 55 55 55. -/
theorem c7_dsd_two_channel_equiv (src : List Nat) (total : Nat)
    (t : Option (Nat → Nat)) (swap : Bool)
    (hsrc : ∀ x ∈ src, x < 256) (h4 : 4 ∣ total / 2)
    (ht : ∀ f, t = some f → ∀ b, b < 256 → f b = rb8 b)
    (hswap : swap = false ∨ 32 ∣ total / 2) :
    convertDSDPlanar_AVX2 src total 2 t swap =
      convertDSDPlanar_Scalar src total 2 t swap ∧
    convertDSDPlanar_AVX2 (List.replicate 64 0xAA ++ List.replicate 64 0x55) 128 2
        none false =
      (List.replicate 16 [0xAA, 0xAA, 0xAA, 0xAA, 0x55, 0x55, 0x55, 0x55]).flatten := by
  constructor
  · unfold convertDSDPlanar_AVX2 convertDSDPlanar_Scalar
    rw [if_pos rfl]
    simp only
    rw [dsdVec2Loop_eq_scalar src (total / 2) t swap h4 hsrc ht hswap (total / 2) 0
      (by omega) (fun _ => by omega) (by omega)]
    exact dsdScalarLoop_fuel src (total / 2) t swap 2 (8 * (total / 2)) (total / 2) 0
      (by omega) (by omega)
  · decide

set_option maxRecDepth 40000 in
/-- The AVX2 two-channel DSD path is not equivalent to the scalar path
for every flag combination: with byte-swap on and a 4-byte-per-channel
input, the vector path's scalar tail performs no byte swap. -/
theorem c7_dsd_two_channel_equiv_counterexample :
    convertDSDPlanar_AVX2 [1, 2, 3, 4, 5, 6, 7, 8] 8 2 none true ≠
      convertDSDPlanar_Scalar [1, 2, 3, 4, 5, 6, 7, 8] 8 2 none true := by
  decide

set_option maxRecDepth 100000 in
theorem c7_dsd_two_channel_equiv_witness :
    (∀ x ∈ ([1, 2, 3, 4, 5, 6, 7, 8] : List Nat), x < 256) ∧ 4 ∣ (8 : Nat) / 2 ∧
    (convertDSDPlanar_AVX2 [1, 2, 3, 4, 5, 6, 7, 8] 8 2 none false =
        convertDSDPlanar_Scalar [1, 2, 3, 4, 5, 6, 7, 8] 8 2 none false ∧
      convertDSDPlanar_AVX2 (List.replicate 64 0xAA ++ List.replicate 64 0x55) 128 2
          none false =
        (List.replicate 16 [0xAA, 0xAA, 0xAA, 0xAA, 0x55, 0x55, 0x55, 0x55]).flatten) :=
  ⟨by decide, by decide,
    c7_dsd_two_channel_equiv [1, 2, 3, 4, 5, 6, 7, 8] 8 none false (by decide)
      (by decide) (fun f h => nomatch h) (Or.inl rfl)⟩

end Diretta
namespace Diretta

/-! ### The seek-time parser of DirettaRenderer (claim C9) -/

attribute [local semireducible] Rat.mul Rat.add

/-- Leading-whitespace skipping performed by `%lf` (and by `std::stod`). -/
def skipSpaces : List Char → List Char
  | [] => []
  | c :: rest =>
      if c = ' ' ∨ c = '\t' ∨ c = '\n' ∨ c = '\r' then skipSpaces rest
      else c :: rest

/-- Value of a digit string. -/
def digitsVal (ds : List Char) : Nat :=
  ds.foldl (fun a c => 10 * a + (c.toNat - 48)) 0

/-- One `%lf` conversion (also the prefix `std::stod` accepts): skip
whitespace, optional sign, digits with an optional fractional part;
`none` is a matching failure.  Exact rational arithmetic stands in for
`double`, which is exact on the magnitudes involved here. -/
def parseNumber (s : List Char) : Option (ℚ × List Char) :=
  let s1 := skipSpaces s
  let signAndRest : Bool × List Char :=
    match s1 with
    | '-' :: rest => (true, rest)
    | '+' :: rest => (false, rest)
    | _ => (false, s1)
  let neg := signAndRest.1
  let s2 := signAndRest.2
  let ip := s2.takeWhile Char.isDigit
  let s3 := s2.dropWhile Char.isDigit
  let fracAndRest : List Char × List Char :=
    match s3 with
    | '.' :: rest => (rest.takeWhile Char.isDigit, rest.dropWhile Char.isDigit)
    | _ => ([], s3)
  let fp := fracAndRest.1
  let s4 := fracAndRest.2
  if ip.isEmpty && fp.isEmpty then none
  else
    let v : ℚ := mkRat (digitsVal ip * 10 ^ fp.length + digitsVal fp) (10 ^ fp.length)
    some (if neg then -v else v, s4)

/-- `sscanf(timeStr.c_str(), "%lf:%lf:%lf", &hours, &minutes, &seconds)`:
the assignment count and the three fields (the caller initializes all
three to 0, and `sscanf` leaves unassigned fields untouched). -/
def sscanf3TimeFormat (s : List Char) : Nat × ℚ × ℚ × ℚ :=
  match parseNumber s with
  | none => (0, 0, 0, 0)
  | some (h, r1) =>
    match r1 with
    | ':' :: r2 =>
      (match parseNumber r2 with
       | none => (1, h, 0, 0)
       | some (m, r3) =>
         match r3 with
         | ':' :: r4 =>
           (match parseNumber r4 with
            | none => (2, h, m, 0)
            | some (sec, _) => (3, h, m, sec))
         | _ => (2, h, m, 0))
    | _ => (1, h, 0, 0)

/-- `DirettaRenderer.cpp::parseTimeString`: if `sscanf` assigned at
least two fields, `hours * 3600 + minutes * 60 + seconds`; otherwise
`std::stod`, whose conversion failure is caught and mapped to 0. -/
def parseTimeString (s : List Char) : ℚ :=
  let r := sscanf3TimeFormat s
  if 2 ≤ r.1 then r.2.1 * 3600 + r.2.2.1 * 60 + r.2.2.2
  else
    match parseNumber s with
    | some (v, _) => v
    | none => 0

/-- Claim C9 (code bug): the seek-time parser maps the documented
"MM:SS" form to hours and minutes: "5:30" parses to 19800 seconds
(5 h 30 min), not the 330 s that the documented MM*60+SS reading
denotes, because `sscanf` with format "%lf:%lf:%lf" returns 2 on that
input and the code then scales the first two fields by 3600 and 60.
The "HH:MM:SS" and plain-seconds forms behave as documented. -/
theorem c9_parse_time_bug :
    parseTimeString ("5:30".toList) = 19800 ∧
    parseTimeString ("5:30".toList) ≠ 5 * 60 + 30 ∧
    parseTimeString ("1:02:03".toList) = 1 * 3600 + 2 * 60 + 3 ∧
    parseTimeString ("42".toList) = 42 ∧
    parseTimeString ("2.5".toList) = mkRat 5 2 ∧
    parseTimeString ("abc".toList) = 0 := by
  refine ⟨?_, ?_, ?_, ?_, ?_, ?_⟩ <;> decide

end Diretta
